import Mathlib

/-!
Verification of the cascade_pipeline Evidence Audit & Matching Engine.

Shallow embedding of `src/pipeline/registry_checker.py`,
`src/pipeline/ground_truth.py` and the matcher in `src/cascade_bench.py`.
Python strings are `String` (computed through their character lists so that
every definition kernel-reduces), floats are `ℚ`, dicts with optional keys
are structures with `Option` fields, and a Python function that can raise an
uncaught exception is embedded as `Except String _`.
-/

namespace Cascade

/-! ## Python string primitives -/

/-- The characters Python's `str.strip()` and `\s` treat as whitespace
(ASCII fragment). -/
def isPySpace (c : Char) : Bool :=
  c = ' ' || c = '\t' || c = '\n' || c = '\x0d' || c = '\x0b' || c = '\x0c'

/-- Python `str.strip()`: drop whitespace from both ends. -/
def pyStrip (s : String) : String :=
  ⟨(s.data.dropWhile isPySpace).reverse.dropWhile isPySpace |>.reverse⟩

/-- Python `str.lower()` (ASCII fragment). -/
def pyLower (s : String) : String :=
  ⟨s.data.map Char.toLower⟩

/-- Collapse every maximal run of whitespace to a single space,
embedding `re.sub(r'\s+', ' ', -)`.  The flag records whether the previous
character was whitespace, i.e. whether a run is already open. -/
def collapseWsAux : Bool → List Char → List Char
  | _, [] => []
  | inRun, c :: cs =>
    if isPySpace c then
      if inRun then collapseWsAux true cs else ' ' :: collapseWsAux true cs
    else c :: collapseWsAux false cs

/-- Whether `needle` occurs as a contiguous sublist of `hay`. -/
def containsSub (needle : List Char) : List Char → Bool
  | [] => needle.isEmpty
  | c :: cs => needle.isPrefixOf (c :: cs) || containsSub needle cs

/-- Whether `needle` occurs as a contiguous substring of `hay`
(Python's `needle in hay`). -/
def containsStr (hay needle : String) : Bool :=
  containsSub needle.data hay.data

/-- `_normalize` from registry_checker.py: lowercase, strip, collapse
whitespace runs to single spaces. -/
def normalize (text : String) : String :=
  ⟨collapseWsAux false (pyStrip (pyLower text)).data⟩

/-- `_phrase_in_text` from registry_checker.py. -/
def phrase_in_text (phrase text : String) : Bool :=
  containsStr (normalize text) (normalize phrase)

/-- Python `str.split()` with no argument: split on whitespace runs and
drop empty pieces.  The accumulator holds the current word reversed. -/
def splitWsAux : List Char → List Char → List (List Char)
  | acc, [] => if acc.isEmpty then [] else [acc.reverse]
  | acc, c :: cs =>
    if isPySpace c then
      if acc.isEmpty then splitWsAux [] cs else acc.reverse :: splitWsAux [] cs
    else splitWsAux (c :: acc) cs

def pySplitWs (s : String) : List String :=
  (splitWsAux [] s.data).map (⟨·⟩)

/-- `" ".join(parts)`. -/
def joinSpace (parts : List String) : String :=
  ⟨joinAux (parts.map String.data)⟩
where
  joinAux : List (List Char) → List Char
    | [] => []
    | [x] => x
    | x :: xs => x ++ ' ' :: joinAux xs

/-! ## Negation-integrity check (registry_checker.py lines 161-215) -/

/-- One entry of `NEGATION_CRITICAL_PHRASES`. -/
structure NegCheck where
  canonical : String
  required_negations : List String
  description : String
  deriving DecidableEq, Repr

def NEGATION_CRITICAL_PHRASES : List NegCheck :=
  [ { canonical := "neither the securities and exchange commission nor any state securities regulator has approved or disapproved",
      required_negations := ["neither", "nor"],
      description := "SEC/FINRA statutory disclaimer" },
    { canonical := "has not approved or disapproved",
      required_negations := ["not"],
      description := "SEC approval negation" },
    { canonical := "no guarantee",
      required_negations := ["no"],
      description := "No-guarantee language" } ]

/-- The fragment words the checker joins with the `.*` wildcard:
words of the canonical phrase longer than three characters that are not
required negation words, first three in source order
(`key_fragments[:3]` in the source). -/
def key_fragments (check : NegCheck) : List String :=
  ((pySplitWs check.canonical).filter
    (fun w => w.data.length > 3 && !(check.required_negations.contains w))).take 3

/-- The suffix of `hay` after the first occurrence of `needle`, if any. -/
def firstOccSuffix (needle : String) : List Char → Option (List Char)
  | [] => if needle.data.isEmpty then some [] else none
  | c :: cs =>
    if needle.data.isPrefixOf (c :: cs) then some ((c :: cs).drop needle.data.length)
    else firstOccSuffix needle cs

/-- `re.search(w1 ++ ".*" ++ w2 ++ ".*" ++ w3, s)`: the literal words occur
in order with arbitrary gaps.  Searching each word at its first occurrence
is equivalent to existence of such a decomposition. -/
def seqSearch : List String → String → Bool
  | [], _ => true
  | w :: ws, s =>
    match firstOccSuffix w s.data with
    | none => false
    | some rest => seqSearch ws ⟨rest⟩

/-! ## Registry data model

A registry claim is a JSON object whose keys may be absent; absent keys are
`none`.  `page` is the result of Python's `str()` on the raw value, which is
total, so it is kept as a plain `String` option. -/

structure Support where
  text : Option String
  deriving DecidableEq, Repr

structure Claim where
  claim_id : Option String
  page : Option String
  claim_type : Option String
  exact_text : Option String
  support : Option Support
  flags : Option (List String)
  deriving DecidableEq, Repr

structure Contradiction where
  contradiction_id : Option String
  claim_ids : List String
  deriving DecidableEq, Repr

structure Registry where
  claims : List Claim
  contradictions : List Contradiction
  deriving DecidableEq, Repr

/-- `claim.get("exact_text", "") or ""`. -/
def Claim.exactTextOrEmpty (c : Claim) : String := c.exact_text.getD ""

/-- The support text a claim contributes when
`support and support.get("text")` is truthy. -/
def Claim.supportTextIfTruthy (c : Claim) : List String :=
  match c.support with
  | none => []
  | some s =>
    match s.text with
    | none => []
    | some t => if t = "" then [] else [t]

/-- `" ".join(page_texts.values())` with pages kept in insertion
(page-number) order. -/
def joinedSource (page_texts : List (Nat × String)) : String :=
  joinSpace (page_texts.map Prod.snd)

/-- Disclaimer texts collected by `_check_negation_integrity`: `exact_text`
of claims whose `claim_type` is `"disclosures"`, plus the support text of
every claim (the support append is outside the claim-type test in the
source). -/
def disclaimerTexts (registry : Registry) : List String :=
  registry.claims.flatMap (fun c =>
    (if c.claim_type = some "disclosures" then [c.exactTextOrEmpty] else [])
      ++ c.supportTextIfTruthy)

/-! ## Issues -/

inductive Issue where
  | missingPage (page : Nat)
  | orphanNumber (number : String)
  | missedDisclaimer (phrase : String)
  | garbledDisclaimer (description expected_negation note : String)
  | invalidReference (contradiction_id : Option String) (missing_claim_id : String)
  | orphanFlag (claim_id flag : String)
  | parseError (detail : String)
  | pdfExtractError (detail : String)
  deriving DecidableEq, Repr

def Issue.type : Issue → String
  | .missingPage _ => "MISSING_PAGE"
  | .orphanNumber _ => "ORPHAN_NUMBER"
  | .missedDisclaimer _ => "MISSED_DISCLAIMER"
  | .garbledDisclaimer _ _ _ => "GARBLED_DISCLAIMER"
  | .invalidReference _ _ => "INVALID_REFERENCE"
  | .orphanFlag _ _ => "ORPHAN_FLAG"
  | .parseError _ => "PARSE_ERROR"
  | .pdfExtractError _ => "PDF_EXTRACT_ERROR"

/-! ## Number extraction (registry_checker.py lines 48-75)

A small backtracking regular-expression engine: candidate post-match states
are produced in Python's backtracking priority order (greedy quantifiers try
the longest repetition first), so the head of the result list is the match
Python's `re` module reports.  Fuel bounds the quantifier unfolding; every
quantified sub-pattern of `NUMBER_PATTERNS` consumes at least one character
per iteration, so input length plus a constant is always enough fuel. -/

inductive RE where
  | cls (p : Char → Bool)
  | eps
  | seq (r s : RE)
  | alt (r s : RE)
  | rep (r : RE) (lo : Nat) (hi : Option Nat)
  | wordB

/-- Python `\w` (ASCII fragment): letters, digits, underscore. -/
def isWordChar (c : Char) : Bool := c.isAlphanum || c = '_'

/-- Run a regex from a state (previous character, remaining input); return
the list of post-match states in backtracking priority order. -/
def reRun : Nat → RE → Option Char → List Char → List (Option Char × List Char)
  | 0, _, _, _ => []
  | fuel+1, re, prev, rest =>
    match re with
    | .cls p =>
      match rest with
      | [] => []
      | c :: cs => if p c then [(some c, cs)] else []
    | .eps => [(prev, rest)]
    | .wordB =>
      let lw := match prev with | none => false | some c => isWordChar c
      let rw := match rest with | [] => false | c :: _ => isWordChar c
      if lw ≠ rw then [(prev, rest)] else []
    | .seq r s => (reRun fuel r prev rest).flatMap fun pr => reRun fuel s pr.1 pr.2
    | .alt r s => reRun fuel r prev rest ++ reRun fuel s prev rest
    | .rep r lo hi =>
      match lo, hi with
      | l+1, _ =>
        (reRun fuel r prev rest).flatMap fun pr =>
          reRun fuel (.rep r l (hi.map (· - 1))) pr.1 pr.2
      | 0, some 0 => [(prev, rest)]
      | 0, _ =>
        ((reRun fuel r prev rest).flatMap fun pr =>
          reRun fuel (.rep r 0 (hi.map (· - 1))) pr.1 pr.2) ++ [(prev, rest)]

/-- `re.finditer`: scan left to right, at each position take the engine's
first match, yield it and continue after its end (Python advances one
character past an empty match). -/
def findIter : Nat → RE → Option Char → List Char → List (List Char)
  | 0, _, _, _ => []
  | fuel+1, r, prev, rest =>
    match reRun (rest.length + 100) r prev rest with
    | [] =>
      match rest with
      | [] => []
      | c :: cs => findIter fuel r (some c) cs
    | (p, rst) :: _ =>
      let consumed := rest.length - rst.length
      if consumed = 0 then
        match rest with
        | [] => [[]]
        | c :: cs => [] :: findIter fuel r (some c) cs
      else (rest.take consumed) :: findIter fuel r p rst

def reSeqL : List RE → RE
  | [] => .eps
  | [r] => r
  | r :: rs => .seq r (reSeqL rs)

def reDigit : RE := .cls Char.isDigit
def reLit (c : Char) : RE := .cls (· = c)
def reSpace : RE := .cls isPySpace

/-- `NUMBER_PATTERNS` from registry_checker.py, compiled with
`re.IGNORECASE` (the letter classes accept both cases). -/
def NUMBER_PATTERNS : List RE :=
  [ -- r'\d+\.?\d*\s*%'
    reSeqL [.rep reDigit 1 none, .rep (reLit '.') 0 (some 1), .rep reDigit 0 none,
            .rep reSpace 0 none, reLit '%'],
    -- r'\$\s*[\d,]+\.?\d*'
    reSeqL [reLit '$', .rep reSpace 0 none, .rep (.cls fun c => c.isDigit || c = ',') 1 none,
            .rep (reLit '.') 0 (some 1), .rep reDigit 0 none],
    -- r'\d{1,2}/\d{1,2}/\d{2,4}'
    reSeqL [.rep reDigit 1 (some 2), reLit '/', .rep reDigit 1 (some 2), reLit '/',
            .rep reDigit 2 (some 4)],
    -- r'\b\d{4}\b'
    reSeqL [.wordB, .rep reDigit 4 (some 4), .wordB],
    -- r'\d+\.?\d*\s*(?:bps|bp)'
    reSeqL [.rep reDigit 1 none, .rep (reLit '.') 0 (some 1), .rep reDigit 0 none,
            .rep reSpace 0 none,
            .alt (reSeqL [.cls fun c => c = 'b' || c = 'B', .cls fun c => c = 'p' || c = 'P',
                          .cls fun c => c = 's' || c = 'S'])
                 (reSeqL [.cls fun c => c = 'b' || c = 'B', .cls fun c => c = 'p' || c = 'P'])],
    -- r'\d+\.?\d*x'
    reSeqL [.rep reDigit 1 none, .rep (reLit '.') 0 (some 1), .rep reDigit 0 none,
            .cls fun c => c = 'x' || c = 'X'] ]

/-- Ordered insertion into a duplicate-free list; determinizes Python's
set insertion (membership and cardinality agree with the Python set). -/
def insertNew (l : List String) (s : String) : List String :=
  if l.contains s then l else l ++ [s]

/-- `_extract_numbers` from registry_checker.py: union over all patterns of
all stripped matches. -/
def extract_numbers (text : String) : List String :=
  NUMBER_PATTERNS.foldl (fun acc pat =>
    (findIter (text.data.length + 1) pat none text.data).foldl
      (fun acc m => insertNew acc (pyStrip ⟨m⟩)) acc) []

def garbledNote : String := "Negation present in source but missing from registry capture"

/-- `_check_negation_integrity` from registry_checker.py.  `source_norm` is
`_normalize` of the joined page texts and `registry_norm` is `_normalize` of
the joined disclaimer texts, written inline. -/
def check_negation_integrity (page_texts : List (Nat × String))
    (registry : Registry) : List Issue :=
  NEGATION_CRITICAL_PHRASES.flatMap (fun check =>
    if seqSearch (key_fragments check) (normalize (joinedSource page_texts)) then
      check.required_negations.filterMap (fun neg_word =>
        if !phrase_in_text neg_word (normalize (joinSpace (disclaimerTexts registry)))
            && phrase_in_text neg_word (normalize (joinedSource page_texts)) then
          some (.garbledDisclaimer check.description neg_word garbledNote)
        else none)
    else [])

/-! ## Structural coverage (registry_checker.py lines 88-104) -/

/-- `re.split(r'[-,]', s)`: split on every dash or comma. -/
def splitDashComma : List Char → List Char → List (List Char)
  | acc, [] => [acc.reverse]
  | acc, c :: cs =>
    if c = '-' || c = ',' then acc.reverse :: splitDashComma [] cs
    else splitDashComma (c :: acc) cs

/-- Python `str.isdigit()` (ASCII fragment): non-empty and all digits. -/
def pyIsDigit (l : List Char) : Bool := !l.isEmpty && l.all Char.isDigit

def digitsToNat (l : List Char) : Nat :=
  l.foldl (fun a c => 10 * a + (c.toNat - 48)) 0

/-- Pages claimed by the registry: each claim's `page` string split on
dashes and commas, stripped, kept when all digits. -/
def claimedPages (registry : Registry) : List Nat :=
  registry.claims.flatMap (fun c =>
    (splitDashComma [] (c.page.getD "").data).filterMap (fun part =>
      let part := (pyStrip ⟨part⟩).data
      if pyIsDigit part then some (digitsToNat part) else none))

/-- `_check_structural_coverage`. -/
def check_structural_coverage (registry : Registry) (total_pages : Nat) : List Issue :=
  ((List.range' 1 total_pages).filter
    (fun p => !(claimedPages registry).contains p)).map .missingPage

/-! ## Numerical coverage (registry_checker.py lines 107-136) -/

/-- Union of the numeric tokens of every page, in page order. -/
def sourceNumbers (page_texts : List (Nat × String)) : List String :=
  page_texts.foldl (fun acc pt => (extract_numbers pt.2).foldl insertNew acc) []

/-- The concatenation of every claim's `exact_text` and truthy support text. -/
def registryCombinedText (registry : Registry) : String :=
  joinSpace (registry.claims.flatMap (fun c =>
    [c.exactTextOrEmpty] ++ c.supportTextIfTruthy))

/-- `_check_numerical_coverage`: one `ORPHAN_NUMBER` per source token not in
the registry tokens, plus the coverage score. -/
def check_numerical_coverage (page_texts : List (Nat × String))
    (registry : Registry) : List Issue × ℚ :=
  let source_numbers := sourceNumbers page_texts
  if source_numbers.isEmpty then ([], 1)
  else
    let registry_numbers := extract_numbers (registryCombinedText registry)
    let orphan_numbers := source_numbers.filter (fun n => !registry_numbers.contains n)
    (orphan_numbers.map .orphanNumber,
      1 - (orphan_numbers.length : ℚ) / (source_numbers.length : ℚ))

/-! ## Disclaimer coverage (registry_checker.py lines 139-158) -/

def STANDARD_DISCLAIMERS : List String :=
  [ "past performance", "no guarantee", "not FDIC insured", "may lose value",
    "subject to change", "not a deposit", "not insured by any federal government agency",
    "prospectus", "read the prospectus", "investment return and principal value" ]

/-- `_check_disclaimer_coverage`. -/
def check_disclaimer_coverage (page_texts : List (Nat × String))
    (registry : Registry) : List Issue :=
  let full_source := joinedSource page_texts
  let registry_combined := registryCombinedText registry
  (STANDARD_DISCLAIMERS.filter (fun phrase =>
    phrase_in_text phrase full_source && !phrase_in_text phrase registry_combined)).map
    .missedDisclaimer

/-! ## Contradiction consistency (registry_checker.py lines 218-246)

`{c["claim_id"] for c in registry.get("claims", [])}` raises `KeyError` on
the first claim object without a `claim_id` key; the embedding surfaces
this as `Except.error`. -/

def getClaimIds : List Claim → Except String (List String)
  | [] => .ok []
  | c :: cs =>
    match c.claim_id with
    | none => .error "KeyError: 'claim_id'"
    | some cid => (getClaimIds cs).map (cid :: ·)

/-- `_check_contradiction_consistency`.  After `getClaimIds` succeeds every
claim has a `claim_id`, so the `getD ""` defaults in the orphan-flag pass
are never exercised. -/
def check_contradiction_consistency (registry : Registry) :
    Except String (List Issue) := do
  let claim_ids ← getClaimIds registry.claims
  let invalid := registry.contradictions.flatMap (fun con =>
    con.claim_ids.filterMap (fun cid =>
      if !claim_ids.contains cid then
        some (Issue.invalidReference con.contradiction_id cid)
      else none))
  let contradiction_claim_ids := registry.contradictions.flatMap (·.claim_ids)
  let orphans := registry.claims.filterMap (fun claim =>
    if (claim.flags.getD []).contains "INTERNAL_CONTRADICTION"
        && !contradiction_claim_ids.contains (claim.claim_id.getD "") then
      some (Issue.orphanFlag (claim.claim_id.getD "") "INTERNAL_CONTRADICTION")
    else none)
  return invalid ++ orphans

/-! ## The full checker (registry_checker.py lines 249-326) -/

/-- Banker's rounding of a rational to an integer. -/
def roundHalfEven (q : ℚ) : ℤ :=
  let f := ⌊q⌋
  let r := q - (f : ℚ)
  if r < 1/2 then f else if 1/2 < r then f + 1 else if 2 ∣ f then f else f + 1

/-- Python `round(q, 3)`. -/
def round3 (q : ℚ) : ℚ := (roundHalfEven (q * 1000) : ℚ) / 1000

/-- One step of building `issue_summary`: increment the count of a type,
inserting it at the end on first occurrence (Python dict semantics). -/
def bumpType : List (String × Nat) → String → List (String × Nat)
  | [], t => [(t, 1)]
  | (k, v) :: rest, t =>
    if k = t then (k, v + 1) :: rest else (k, v) :: bumpType rest t

def buildSummary (issues : List Issue) : List (String × Nat) :=
  issues.foldl (fun m i => bumpType m i.type) []

def criticalTypes : List String :=
  ["GARBLED_DISCLAIMER", "PARSE_ERROR", "PDF_EXTRACT_ERROR"]

structure Report where
  coverage_score : ℚ
  total_pages : Option Nat
  total_claims : Option Nat
  total_contradictions : Option Nat
  issues : List Issue
  issue_summary : Option (List (String × Nat))
  passed : Bool
  deriving DecidableEq, Repr

/-- The part of `validate_registry` after JSON parsing and PDF extraction
succeeded. -/
def validate_registry_main (page_texts : List (Nat × String))
    (registry : Registry) : Except String Report := do
  let total_pages := page_texts.length
  let issues1 := check_structural_coverage registry total_pages
  let numres := check_numerical_coverage page_texts registry
  let coverage_score := numres.2
  let issues3 := check_disclaimer_coverage page_texts registry
  let issues4 := check_negation_integrity page_texts registry
  let issues5 ← check_contradiction_consistency registry
  let all_issues := issues1 ++ numres.1 ++ issues3 ++ issues4 ++ issues5
  let has_critical := all_issues.any (fun i => criticalTypes.contains i.type)
  let passed := decide (coverage_score ≥ 7/10) && !has_critical
  return { coverage_score := round3 coverage_score,
           total_pages := some total_pages,
           total_claims := some registry.claims.length,
           total_contradictions := some registry.contradictions.length,
           issues := all_issues,
           issue_summary := some (buildSummary all_issues),
           passed := passed }

/-- The report returned when the registry JSON cannot be parsed.  The
Python dict has no `total_pages`, `total_claims`, `total_contradictions` or
`issue_summary` keys, embedded as `none`. -/
def parseErrorReport : Report :=
  { coverage_score := 0, total_pages := none, total_claims := none,
    total_contradictions := none,
    issues := [.parseError "Registry JSON is invalid"],
    issue_summary := none, passed := false }

/-- The report returned when PDF text extraction raises. -/
def pdfErrorReport (detail : String) : Report :=
  { coverage_score := 0, total_pages := none, total_claims := none,
    total_contradictions := none,
    issues := [.pdfExtractError detail],
    issue_summary := none, passed := false }

/-- `validate_registry`: `parsed_registry` is the outcome of `json.loads`
followed by the `registry_data.get("registry", registry_data)` unwrap —
`none` on a `JSONDecodeError`/`TypeError`; `pdf_pages` is the outcome of
PyMuPDF extraction, `Except.error` when the document is unreadable. -/
def validate_registry (parsed_registry : Option Registry)
    (pdf_pages : Except String (List (Nat × String))) : Except String Report :=
  match parsed_registry with
  | none => .ok parseErrorReport
  | some registry =>
    match pdf_pages with
    | .error e => .ok (pdfErrorReport e)
    | .ok page_texts => validate_registry_main page_texts registry

/-! ## difflib.SequenceMatcher (used by `sentence_similarity`)

`SequenceMatcher(None, a, b).ratio()` with no junk predicate: the junk set
is empty, so the two junk-extension loops of `find_longest_match` never
run and `not isbjunk(...)` is always true; the autojunk heuristic still
removes "popular" elements from `b2j` when `len(b) >= 200`. -/

/-- Element of a list, out-of-range reads return a space (all reads the
algorithm performs are in range). -/
def cAt (l : List Char) (i : Nat) : Char := l.getD i ' '

/-- Indices of `c` in `b`, ascending (`b2j` before the autojunk purge). -/
def positions (b : List Char) (c : Char) : List Nat :=
  (List.range b.length).filter (fun i => cAt b i = c)

/-- The autojunk rule of `SequenceMatcher.__chain_b`. -/
def isPopular (b : List Char) (c : Char) : Bool :=
  b.length ≥ 200 && (positions b c).length > b.length / 100 + 1

/-- `b2j` after the autojunk purge. -/
def b2j (b : List Char) (c : Char) : List Nat :=
  if isPopular b c then [] else positions b c

structure FB where
  besti : Nat
  bestj : Nat
  bestsize : Nat
  deriving DecidableEq, Repr

/-- `j2len.get(j, 0)` on the association list representing the dict. -/
def j2get (m : List (Nat × Nat)) (j : Nat) : Nat := (m.lookup j).getD 0

/-- The inner loop of `find_longest_match` over the occurrences `js` of
`a[i]` in `b` (already range-filtered); `prev` is the previous row's
`j2len`, `acc` the row being built.  `k = j2len.get(j-1, 0) + 1`, and in
Python `j-1` is `-1` when `j = 0`, whose lookup yields the default `0`. -/
def innerLoop (i : Nat) (prev : List (Nat × Nat)) :
    List Nat → List (Nat × Nat) → FB → List (Nat × Nat) × FB
  | [], acc, fb => (acc, fb)
  | j :: js, acc, fb =>
    let k := (if j = 0 then 0 else j2get prev (j - 1)) + 1
    let fb' := if k > fb.bestsize then ⟨i + 1 - k, j + 1 - k, k⟩ else fb
    innerLoop i prev js (acc ++ [(j, k)]) fb'

/-- The outer loop of `find_longest_match` over rows `alo..ahi-1`. -/
def rowLoop (a b : List Char) (blo bhi : Nat) :
    List Nat → List (Nat × Nat) → FB → FB
  | [], _, fb => fb
  | i :: is, j2len, fb =>
    let js := (b2j b (cAt a i)).filter (fun j => blo ≤ j && j < bhi)
    let res := innerLoop i j2len js [] fb
    rowLoop a b blo bhi is res.1 res.2

/-- Backward extension loop (`while besti > alo and bestj > blo and
a[besti-1] == b[bestj-1]`); each iteration decrements `besti`, so `besti`
itself is enough fuel. -/
def extendBack (a b : List Char) (alo blo : Nat) : Nat → FB → FB
  | 0, fb => fb
  | fuel+1, fb =>
    if fb.besti > alo ∧ fb.bestj > blo ∧ cAt a (fb.besti - 1) = cAt b (fb.bestj - 1) then
      extendBack a b alo blo fuel ⟨fb.besti - 1, fb.bestj - 1, fb.bestsize + 1⟩
    else fb

/-- Forward extension loop; each iteration moves `besti + bestsize` one
step closer to `ahi`, so `ahi` is enough fuel. -/
def extendFwd (a b : List Char) (ahi bhi : Nat) : Nat → FB → FB
  | 0, fb => fb
  | fuel+1, fb =>
    if fb.besti + fb.bestsize < ahi ∧ fb.bestj + fb.bestsize < bhi
        ∧ cAt a (fb.besti + fb.bestsize) = cAt b (fb.bestj + fb.bestsize) then
      extendFwd a b ahi bhi fuel ⟨fb.besti, fb.bestj, fb.bestsize + 1⟩
    else fb

def find_longest_match (a b : List Char) (alo ahi blo bhi : Nat) : FB :=
  let fb := rowLoop a b blo bhi (List.range' alo (ahi - alo)) [] ⟨alo, blo, 0⟩
  let fb := extendBack a b alo blo fb.besti fb
  extendFwd a b ahi bhi ahi fb

/-- Total size of all matching blocks of `get_matching_blocks` restricted
to a region: recursive decomposition around the longest match.  The region
sizes strictly shrink when `bestsize > 0`, so `len a + len b + 1` is enough
fuel. -/
def matchTotal (a b : List Char) : Nat → Nat → Nat → Nat → Nat → Nat
  | 0, _, _, _, _ => 0
  | fuel+1, alo, ahi, blo, bhi =>
    let fb := find_longest_match a b alo ahi blo bhi
    if fb.bestsize = 0 then 0
    else
      matchTotal a b fuel alo fb.besti blo fb.bestj + fb.bestsize +
        matchTotal a b fuel (fb.besti + fb.bestsize) ahi (fb.bestj + fb.bestsize) bhi

/-- `SequenceMatcher(None, a, b).ratio() = 2*M/T`, defined as `1.0` when
both sequences are empty (`_calculate_ratio`). -/
def ratioQ (a b : List Char) : ℚ :=
  let t := a.length + b.length
  if t = 0 then 1
  else 2 * (matchTotal a b (a.length + b.length + 1) 0 a.length 0 b.length : ℚ) / (t : ℚ)

/-- `sentence_similarity` from ground_truth.py and cascade_bench.py. -/
def sentence_similarity (a b : String) : ℚ :=
  ratioQ (pyStrip (pyLower a)).data (pyStrip (pyLower b)).data

/-! ## Ground-truth matching (ground_truth.py lines 56-148) -/

/-- A ground-truth entry as consumed by the matchers; only the `sentence`
key is read, absent keys default to the empty string via `.get`. -/
structure GTEntry where
  sentence : Option String
  deriving DecidableEq, Repr

/-- A pipeline finding as consumed by the matchers. -/
structure Finding where
  sentence : Option String
  deriving DecidableEq, Repr

/-- Stable insertion into a descending-sorted list: `x` goes after every
element it does not exceed. -/
def insertDesc (le : α → α → Bool) (x : α) : List α → List α
  | [] => [x]
  | y :: ys => if le x y then y :: insertDesc le x ys else x :: y :: ys

/-- `scores.sort(reverse=True)`: stable descending sort. -/
def sortDesc (le : α → α → Bool) (l : List α) : List α :=
  l.foldl (fun acc x => insertDesc le x acc) []

/-- Python tuple comparison `(sim, claim_id, j) <= (sim', claim_id', j')`. -/
def tupLeS (x y : ℚ × String × Nat) : Bool :=
  if x.1 < y.1 then true else if y.1 < x.1 then false
  else if x.2.1 < y.2.1 then true else if y.2.1 < x.2.1 then false
  else x.2.2 ≤ y.2.2

/-- Python tuple comparison `(sim, i, j) <= (sim', i', j')`. -/
def tupLeN (x y : ℚ × Nat × Nat) : Bool :=
  if x.1 < y.1 then true else if y.1 < x.1 then false
  else if x.2.1 < y.2.1 then true else if y.2.1 < x.2.1 then false
  else x.2.2 ≤ y.2.2

/-- The score matrix of `match_claims_to_ground_truth`. -/
def claimScores (claims : List Claim) (ground_truth : List GTEntry) :
    List (ℚ × String × Nat) :=
  claims.flatMap (fun c =>
    ground_truth.enum.map (fun jg =>
      (sentence_similarity (c.exact_text.getD "") (jg.2.sentence.getD ""),
       c.claim_id.getD "", jg.1)))

/-- The greedy assignment pass shared by both matchers in ground_truth.py;
state is (matched ids, matched gt indices, accepted matches). -/
def greedyPass [DecidableEq α] (threshold : ℚ) :
    List (ℚ × α × Nat) → List α × List Nat × List (α × Nat × ℚ) →
    List α × List Nat × List (α × Nat × ℚ)
  | [], st => st
  | (sim, cid, j) :: rest, (mc, mg, ms) =>
    if mc.contains cid || mg.contains j then greedyPass threshold rest (mc, mg, ms)
    else if sim ≥ threshold then
      greedyPass threshold rest (mc ++ [cid], mg ++ [j], ms ++ [(cid, j, round3 sim)])
    else greedyPass threshold rest (mc, mg, ms)

structure ClaimsMatchResult where
  matched_claim_ids : List String
  matched_gt_indices : List Nat
  «matches» : List (String × Nat × ℚ)
  missed_gt : List GTEntry
  coverage : ℚ
  deriving DecidableEq, Repr

/-- `match_claims_to_ground_truth` from ground_truth.py. -/
def match_claims_to_ground_truth (claims : List Claim) (ground_truth : List GTEntry)
    (threshold : ℚ) : ClaimsMatchResult :=
  let sorted := sortDesc tupLeS (claimScores claims ground_truth)
  let res := greedyPass threshold sorted ([], [], [])
  { matched_claim_ids := res.1
    matched_gt_indices := res.2.1
    «matches» := res.2.2
    missed_gt := (ground_truth.enum.filter (fun jg => !res.2.1.contains jg.1)).map Prod.snd
    coverage := if ground_truth.isEmpty then 0
                else (res.2.1.length : ℚ) / (ground_truth.length : ℚ) }

/-- The score matrix of `match_findings_to_ground_truth`. -/
def findingScores (findings : List Finding) (ground_truth : List GTEntry) :
    List (ℚ × Nat × Nat) :=
  findings.enum.flatMap (fun ifd =>
    ground_truth.enum.map (fun jg =>
      (sentence_similarity (ifd.2.sentence.getD "") (jg.2.sentence.getD ""),
       ifd.1, jg.1)))

structure FindingsMatchResult where
  matched_finding_indices : List Nat
  matched_gt_indices : List Nat
  «matches» : List (Nat × Nat × ℚ)
  missed_gt : List GTEntry
  coverage : ℚ
  deriving DecidableEq, Repr

/-- `match_findings_to_ground_truth` from ground_truth.py. -/
def match_findings_to_ground_truth (findings : List Finding)
    (ground_truth : List GTEntry) (threshold : ℚ) : FindingsMatchResult :=
  let sorted := sortDesc tupLeN (findingScores findings ground_truth)
  let res := greedyPass threshold sorted ([], [], [])
  { matched_finding_indices := res.1
    matched_gt_indices := res.2.1
    «matches» := res.2.2
    missed_gt := (ground_truth.enum.filter (fun jg => !res.2.1.contains jg.1)).map Prod.snd
    coverage := if ground_truth.isEmpty then 0
                else (res.2.1.length : ℚ) / (ground_truth.length : ℚ) }

/-- One accepted pair of the cascade_bench.py matcher. -/
structure BenchMatch where
  finding : Finding
  ground_truth : GTEntry
  similarity : ℚ
  deriving DecidableEq, Repr

/-- `match_findings_to_ground_truth` from cascade_bench.py: returns
`(matched, unmatched_findings, missed_ground_truth)`. -/
def bench_match_findings (findings : List Finding) (ground_truth : List GTEntry)
    (threshold : ℚ) : List BenchMatch × List Finding × List GTEntry :=
  let sorted := sortDesc tupLeN (findingScores findings ground_truth)
  let res := greedyPass threshold sorted ([], [], [])
  let matched := res.2.2.map (fun m =>
    { finding := (findings.getD m.1 ⟨none⟩)
      ground_truth := (ground_truth.getD m.2.1 ⟨none⟩)
      similarity := m.2.2 })
  let unmatched := (findings.enum.filter (fun ifd => !res.1.contains ifd.1)).map Prod.snd
  let missed := (ground_truth.enum.filter (fun jg => !res.2.1.contains jg.1)).map Prod.snd
  (matched, unmatched, missed)

end Cascade

/-! Sanity examples (concrete evaluations of the embedding). -/

example : Cascade.normalize "  Hello   WORLD \n x " = "hello world x" := by decide

example : Cascade.key_fragments (Cascade.NEGATION_CRITICAL_PHRASES.get ⟨0, by decide⟩)
    = ["securities", "exchange", "commission"] := by decide

example : Cascade.key_fragments (Cascade.NEGATION_CRITICAL_PHRASES.get ⟨1, by decide⟩)
    = ["approved", "disapproved"] := by decide

example : Cascade.seqSearch ["approved", "disapproved"]
    "the commission has approved or disapproved these securities" = true := by decide

example : Cascade.seqSearch ["securities", "exchange", "commission"]
    "the commission has approved or disapproved these securities" = false := by decide

example : Cascade.extract_numbers "Returns were 5% in 2024." = ["5%", "2024"] := by decide

example : Cascade.extract_numbers "fee of $1,000.50 or 50 bps, 1.5x by 12/31/2024"
    = ["$1,000.50", "12/31/2024", "2024", "50 bps", "1.5x"] := by decide

example : Cascade.extract_numbers "See footnote 1." = [] := by decide

example : Cascade.extract_numbers "code 12345 is not a year" = [] := by decide

section SimilarityExamples

open Cascade

/-- Evaluation helper: `Rat` arithmetic does not kernel-reduce, so concrete
ratios are computed by deciding the `Nat`-valued match total and finishing
the rational arithmetic with `norm_num`. -/
theorem ratioQ_eval (a b : List Char) (m t : Nat)
    (hm : matchTotal a b (a.length + b.length + 1) 0 a.length 0 b.length = m)
    (ht : a.length + b.length = t) (h0 : t ≠ 0) :
    ratioQ a b = 2 * (m : ℚ) / (t : ℚ) := by
  unfold ratioQ
  rw [hm, ht]
  simp [h0]

example : Cascade.sentence_similarity "ab" "bacb" = 2/3 := by
  have h : Cascade.sentence_similarity "ab" "bacb" = ratioQ "ab".data "bacb".data := rfl
  rw [h, ratioQ_eval "ab".data "bacb".data 2 6 (by decide) (by decide) (by decide)]
  norm_num

example : Cascade.sentence_similarity "bacb" "ab" = 1/3 := by
  have h : Cascade.sentence_similarity "bacb" "ab" = ratioQ "bacb".data "ab".data := rfl
  rw [h, ratioQ_eval "bacb".data "ab".data 1 6 (by decide) (by decide) (by decide)]
  norm_num

example : Cascade.sentence_similarity "tide" "diet" = 1/4 := by
  have h : Cascade.sentence_similarity "tide" "diet" = ratioQ "tide".data "diet".data := rfl
  rw [h, ratioQ_eval "tide".data "diet".data 1 8 (by decide) (by decide) (by decide)]
  norm_num

example : Cascade.sentence_similarity "diet" "tide" = 1/2 := by
  have h : Cascade.sentence_similarity "diet" "tide" = ratioQ "diet".data "tide".data := rfl
  rw [h, ratioQ_eval "diet".data "tide".data 2 8 (by decide) (by decide) (by decide)]
  norm_num

example : Cascade.sentence_similarity "" "" = 1 := rfl

example : Cascade.sentence_similarity "abcab" "abcab" = 1 := by
  have h : Cascade.sentence_similarity "abcab" "abcab"
      = ratioQ "abcab".data "abcab".data := rfl
  rw [h, ratioQ_eval "abcab".data "abcab".data 5 10 (by decide) (by decide) (by decide)]
  norm_num

end SimilarityExamples

/-! # Claim verification -/

namespace Cascade

/-- Modelled from the spec: the spec describes the fuzzy fragment as "the
three longest non-negation words" of the canonical phrase.  Stable
descending sort on word length, ties kept in source order, first three. -/
def specThreeLongest (check : NegCheck) : List String :=
  (sortDesc (fun x y => Nat.ble x.data.length y.data.length)
    ((pySplitWs check.canonical).filter
      (fun w => !(check.required_negations.contains w)))).take 3

end Cascade

open Cascade

/-- C8 counterexample: for the SEC/FINRA statutory phrase the checker's
fragment words are the *first three* words longer than three characters
(`securities`, `exchange`, `commission`), not the three longest
non-negation words; the phrase has four words of length at least ten, so
`exchange` (length 8) is not among the three longest under any
tie-breaking. -/
theorem key_fragments_ne_three_longest :
    key_fragments (NEGATION_CRITICAL_PHRASES.get ⟨0, by decide⟩)
        = ["securities", "exchange", "commission"]
    ∧ specThreeLongest (NEGATION_CRITICAL_PHRASES.get ⟨0, by decide⟩)
        = ["disapproved", "securities", "commission"]
    ∧ key_fragments (NEGATION_CRITICAL_PHRASES.get ⟨0, by decide⟩)
        ≠ specThreeLongest (NEGATION_CRITICAL_PHRASES.get ⟨0, by decide⟩)
    ∧ "exchange" ∈ key_fragments (NEGATION_CRITICAL_PHRASES.get ⟨0, by decide⟩)
    ∧ ((pySplitWs (NEGATION_CRITICAL_PHRASES.get ⟨0, by decide⟩).canonical).filter
        (fun w => 10 ≤ w.data.length)).length = 4 := by
  decide

/-- C8 amended: the fuzzy fragment is built from the first three words of
the canonical phrase longer than three characters that are not required
negation words, in source order (joined by the greedy wildcard `.*`);
concretely the three fragment word lists are as evaluated here. -/
theorem key_fragments_eval :
    NEGATION_CRITICAL_PHRASES.map key_fragments
      = [["securities", "exchange", "commission"],
         ["approved", "disapproved"],
         ["guarantee"]] := by
  decide

/-- C1: the checker emits a `GARBLED_DISCLAIMER` issue for a required
negation word of a canonical phrase exactly when the fuzzy fragment occurs
in the normalized source, the negation word occurs in the source, and the
negation word is absent from the registry's captured disclaimer text; in
particular, when the word is absent from both source and registry no issue
is emitted for it. -/
theorem garbled_disclaimer_iff (page_texts : List (Nat × String)) (registry : Registry)
    (check : NegCheck) (neg_word : String)
    (hc : check ∈ NEGATION_CRITICAL_PHRASES) (hw : neg_word ∈ check.required_negations) :
    (Issue.garbledDisclaimer check.description neg_word garbledNote
        ∈ check_negation_integrity page_texts registry
      ↔ (seqSearch (key_fragments check) (normalize (joinedSource page_texts)) = true
          ∧ phrase_in_text neg_word (normalize (joinedSource page_texts)) = true
          ∧ phrase_in_text neg_word (normalize (joinSpace (disclaimerTexts registry))) = false))
    ∧ (phrase_in_text neg_word (normalize (joinedSource page_texts)) = false →
        phrase_in_text neg_word (normalize (joinSpace (disclaimerTexts registry))) = false →
        Issue.garbledDisclaimer check.description neg_word garbledNote
          ∉ check_negation_integrity page_texts registry) := by
  have hinj : ∀ c1 ∈ NEGATION_CRITICAL_PHRASES, ∀ c2 ∈ NEGATION_CRITICAL_PHRASES,
      c1.description = c2.description → c1 = c2 := by decide
  have main : Issue.garbledDisclaimer check.description neg_word garbledNote
        ∈ check_negation_integrity page_texts registry
      ↔ (seqSearch (key_fragments check) (normalize (joinedSource page_texts)) = true
          ∧ phrase_in_text neg_word (normalize (joinedSource page_texts)) = true
          ∧ phrase_in_text neg_word (normalize (joinSpace (disclaimerTexts registry))) = false) := by
    constructor
    · intro hmem
      rw [check_negation_integrity, List.mem_flatMap] at hmem
      obtain ⟨c, hcmem, hx⟩ := hmem
      by_cases hs : seqSearch (key_fragments c) (normalize (joinedSource page_texts)) = true
      · rw [if_pos hs, List.mem_filterMap] at hx
        obtain ⟨w, hwmem, hsome⟩ := hx
        by_cases hcond : (!phrase_in_text w (normalize (joinSpace (disclaimerTexts registry)))
            && phrase_in_text w (normalize (joinedSource page_texts))) = true
        · rw [if_pos hcond] at hsome
          obtain ⟨hdesc, hword, -⟩ := Issue.garbledDisclaimer.inj (Option.some.inj hsome)
          obtain rfl : c = check := hinj c hcmem check hc hdesc
          subst hword
          rcases Bool.and_eq_true_iff.mp hcond with ⟨hreg, hsrc⟩
          exact ⟨hs, hsrc, by simpa using hreg⟩
        · rw [if_neg hcond] at hsome
          exact absurd hsome (by simp)
      · rw [if_neg hs] at hx
        exact absurd hx (List.not_mem_nil _)
    · rintro ⟨h1, h2, h3⟩
      rw [check_negation_integrity, List.mem_flatMap]
      refine ⟨check, hc, ?_⟩
      rw [if_pos h1, List.mem_filterMap]
      refine ⟨neg_word, hw, ?_⟩
      rw [if_pos (by simp [h2, h3])]
  refine ⟨main, fun h2 h3 hmem => ?_⟩
  have := (main.mp hmem).2.1
  rw [h2] at this
  exact Bool.false_ne_true this

/-- C1 witness: a source containing the (intact) statutory negation with an
empty registry yields the issue. -/
theorem garbled_disclaimer_iff_witness :
    Issue.garbledDisclaimer "SEC approval negation" "not" garbledNote
      ∈ check_negation_integrity
          [(1, "This fund has not approved or disapproved anything")] ⟨[], []⟩ := by
  have h := garbled_disclaimer_iff
    [(1, "This fund has not approved or disapproved anything")] ⟨[], []⟩
    ⟨"has not approved or disapproved", ["not"], "SEC approval negation"⟩ "not"
    (by decide) (by decide)
  exact h.1.mpr ⟨by decide, by decide, by decide⟩

/-- C2 counterexample: a source whose disclaimer reads "has approved or
disapproved" (missing "not") with a registry whose captured claim text
reads "has not approved or disapproved" (the registry silently re-inserted
the negation) produces **no** `GARBLED_DISCLAIMER` issue — the checker only
fires when the negation is present in the source and missing from the
registry, not the other way around. -/
theorem negation_check_corrected_registry_silent :
    check_negation_integrity
        [(1, "The Commission has approved or disapproved these securities")]
        ⟨[⟨some "C1", some "1", some "disclosures",
           some "The Commission has not approved or disapproved these securities",
           none, none⟩], []⟩
      = [] := by
  decide

/-- C2 amended: for the garbled source, both the verbatim-capturing
registry and the registry that silently re-inserted "not" produce no
`GARBLED_DISCLAIMER` issue; the check fires only when the negation word is
in the source but missing from the registry capture. -/
theorem negation_check_garbled_source_both_registries :
    check_negation_integrity
        [(1, "The Commission has approved or disapproved these securities")]
        ⟨[⟨some "C1", some "1", some "disclosures",
           some "The Commission has approved or disapproved these securities",
           none, none⟩], []⟩
      = []
    ∧ check_negation_integrity
        [(1, "The Commission has approved or disapproved these securities")]
        ⟨[⟨some "C1", some "1", some "disclosures",
           some "The Commission has not approved or disapproved these securities",
           none, none⟩], []⟩
      = [] := by
  constructor <;> decide

/-! ### Numerical coverage (C5) -/

theorem insertNew_nodup (l : List String) (s : String) (h : l.Nodup) :
    (insertNew l s).Nodup := by
  unfold insertNew
  split
  · exact h
  · next hc =>
    simp only [List.nodup_append, List.nodup_cons, List.nodup_nil]
    refine ⟨h, by simp, ?_⟩
    intro x hx hx1
    simp only [List.mem_singleton] at hx1
    subst hx1
    exact hc (by simpa using hx)

theorem foldl_insertNew_nodup (xs : List String) :
    ∀ l : List String, l.Nodup → (xs.foldl insertNew l).Nodup := by
  induction xs with
  | nil => intro l h; exact h
  | cons x xs ih => intro l h; exact ih _ (insertNew_nodup l x h)

theorem sourceNumbers_nodup (page_texts : List (Nat × String)) :
    (sourceNumbers page_texts).Nodup := by
  unfold sourceNumbers
  generalize hacc : ([] : List String) = acc
  have hn : acc.Nodup := hacc ▸ List.nodup_nil
  clear hacc
  induction page_texts generalizing acc with
  | nil => exact hn
  | cons p ps ih => exact ih _ (foldl_insertNew_nodup _ _ hn)

theorem check_numerical_coverage_eq (page_texts : List (Nat × String))
    (registry : Registry) :
    check_numerical_coverage page_texts registry
      = (if (sourceNumbers page_texts).isEmpty then ([], 1)
         else (((sourceNumbers page_texts).filter
             (fun n => !(extract_numbers (registryCombinedText registry)).contains n)).map
             Issue.orphanNumber,
           1 - (((sourceNumbers page_texts).filter
               (fun n => !(extract_numbers (registryCombinedText registry)).contains n)).length : ℚ)
             / ((sourceNumbers page_texts).length : ℚ))) := rfl

/-- C5: the numerical audit emits exactly one `ORPHAN_NUMBER` issue per
numeric token of the source absent from the registry's combined claim and
support text; the coverage score equals `1 - |orphans| / |source tokens|`,
is `1` when the source has no numeric tokens, and always lies in `[0, 1]`. -/
theorem numerical_coverage_spec (page_texts : List (Nat × String)) (registry : Registry) :
    (check_numerical_coverage page_texts registry).1
      = ((sourceNumbers page_texts).filter
          (fun n => !(extract_numbers (registryCombinedText registry)).contains n)).map
          Issue.orphanNumber
    ∧ (∀ t : String,
        Issue.orphanNumber t ∈ (check_numerical_coverage page_texts registry).1
          ↔ t ∈ sourceNumbers page_texts
            ∧ t ∉ extract_numbers (registryCombinedText registry))
    ∧ (check_numerical_coverage page_texts registry).1.Nodup
    ∧ (check_numerical_coverage page_texts registry).2
        = (if (sourceNumbers page_texts).isEmpty then 1
           else 1 - (((sourceNumbers page_texts).filter
               (fun n => !(extract_numbers (registryCombinedText registry)).contains n)).length : ℚ)
             / ((sourceNumbers page_texts).length : ℚ))
    ∧ (sourceNumbers page_texts = [] → (check_numerical_coverage page_texts registry).2 = 1)
    ∧ 0 ≤ (check_numerical_coverage page_texts registry).2
    ∧ (check_numerical_coverage page_texts registry).2 ≤ 1 := by
  rw [check_numerical_coverage_eq]
  by_cases hE : (sourceNumbers page_texts).isEmpty
  · have hnil : sourceNumbers page_texts = [] := List.isEmpty_iff.mp hE
    simp only [if_pos hE]
    refine ⟨by simp [hnil], ?_, by simp, trivial, fun _ => trivial, by norm_num, by norm_num⟩
    intro t
    simp [hnil]
  · have hnil : sourceNumbers page_texts ≠ [] := by
      simpa [List.isEmpty_iff] using hE
    have hpos : 0 < ((sourceNumbers page_texts).length : ℚ) := by
      have : 0 < (sourceNumbers page_texts).length := List.length_pos.mpr hnil
      exact_mod_cast this
    have hle : (((sourceNumbers page_texts).filter
        (fun n => !(extract_numbers (registryCombinedText registry)).contains n)).length : ℚ)
        ≤ ((sourceNumbers page_texts).length : ℚ) := by
      exact_mod_cast List.length_filter_le _ _
    have hnn : (0 : ℚ) ≤ (((sourceNumbers page_texts).filter
        (fun n => !(extract_numbers (registryCombinedText registry)).contains n)).length : ℚ) :=
      Nat.cast_nonneg _
    simp only [if_neg hE]
    refine ⟨trivial, ?_, ?_, trivial, fun h => absurd h hnil, ?_, ?_⟩
    · intro t
      constructor
      · intro ht
        obtain ⟨u, hu, huv⟩ := List.mem_map.mp ht
        obtain ⟨hu1, hu2⟩ := List.mem_filter.mp hu
        obtain rfl : u = t := by injection huv
        refine ⟨hu1, fun hmem => ?_⟩
        simp only [Bool.not_eq_true', List.contains_eq_any_beq, List.any_eq_false,
          beq_iff_eq] at hu2
        exact hu2 _ hmem rfl
      · rintro ⟨h1, h2⟩
        refine List.mem_map.mpr ⟨t, List.mem_filter.mpr ⟨h1, by simpa using h2⟩, rfl⟩
    · exact ((sourceNumbers_nodup page_texts).filter _).map
        (fun x y h => by injection h)
    · have hdivle : (((sourceNumbers page_texts).filter
          (fun n => !(extract_numbers (registryCombinedText registry)).contains n)).length : ℚ)
          / ((sourceNumbers page_texts).length : ℚ) ≤ 1 :=
        (div_le_one hpos).mpr hle
      linarith
    · have hdivnn : (0:ℚ) ≤ (((sourceNumbers page_texts).filter
          (fun n => !(extract_numbers (registryCombinedText registry)).contains n)).length : ℚ)
          / ((sourceNumbers page_texts).length : ℚ) :=
        div_nonneg hnn (le_of_lt hpos)
      linarith

/-! ### Pass/fail rule (C3) -/

/-- C3: after parsing and PDF extraction succeed, `passed` is true exactly
when the numerical coverage score is at least 0.70 and no accumulated issue
has a critical type (`GARBLED_DISCLAIMER`, `PARSE_ERROR`,
`PDF_EXTRACT_ERROR`); consequently runs whose issues all have one of the
five benign types pass whenever the coverage score is at least 0.70. -/
theorem passed_iff (page_texts : List (Nat × String)) (registry : Registry)
    (report : Report)
    (h : validate_registry_main page_texts registry = Except.ok report) :
    (report.passed = true
      ↔ (7/10 ≤ (check_numerical_coverage page_texts registry).2
          ∧ ∀ i ∈ report.issues, i.type ∉ criticalTypes))
    ∧ (7/10 ≤ (check_numerical_coverage page_texts registry).2 →
        (∀ i ∈ report.issues,
          i.type = "MISSING_PAGE" ∨ i.type = "ORPHAN_NUMBER"
          ∨ i.type = "MISSED_DISCLAIMER" ∨ i.type = "INVALID_REFERENCE"
          ∨ i.type = "ORPHAN_FLAG") →
        report.passed = true) := by
  unfold validate_registry_main at h
  cases hc : check_contradiction_consistency registry with
  | error e =>
    rw [hc] at h
    simp [Bind.bind, Except.bind] at h
  | ok issues5 =>
    rw [hc] at h
    simp only [Bind.bind, Except.bind, pure, Except.pure, Except.ok.injEq] at h
    subst h
    have main : (decide (7/10 ≤ (check_numerical_coverage page_texts registry).2)
          && !((check_structural_coverage registry page_texts.length
              ++ (check_numerical_coverage page_texts registry).1
              ++ check_disclaimer_coverage page_texts registry
              ++ check_negation_integrity page_texts registry
              ++ issues5).any (fun i => criticalTypes.contains i.type))) = true
        ↔ (7/10 ≤ (check_numerical_coverage page_texts registry).2
            ∧ ∀ i ∈ (check_structural_coverage registry page_texts.length
              ++ (check_numerical_coverage page_texts registry).1
              ++ check_disclaimer_coverage page_texts registry
              ++ check_negation_integrity page_texts registry
              ++ issues5), i.type ∉ criticalTypes) := by
      simp only [Bool.and_eq_true, decide_eq_true_eq, Bool.not_eq_true',
        List.any_eq_false, List.mem_append, or_imp, forall_and, ge_iff_le]
      simp
    refine ⟨main, fun hcov hben => main.mpr ⟨hcov, fun i hi => ?_⟩⟩
    rcases hben i hi with h' | h' | h' | h' | h' <;> rw [h'] <;> decide

def c3pages : List (Nat × String) := [(1, "Returns were 5%."), (2, "See footnote 1.")]

def c3registry : Registry :=
  ⟨[⟨some "C1", some "1", none, some "Returns were 5%.", none, none⟩], []⟩

/-- C3 witness: the spec's scenario — page 2 has no claim, so a
`MISSING_PAGE` issue is present, yet coverage is 1.0 and the run passes. -/
theorem passed_iff_witness :
    ∃ r : Report, validate_registry_main c3pages c3registry = Except.ok r
      ∧ r.issues = [Issue.missingPage 2] ∧ r.passed = true := by
  have h5 : check_contradiction_consistency c3registry = Except.ok [] := rfl
  obtain ⟨r, hr⟩ : ∃ r, validate_registry_main c3pages c3registry = Except.ok r := by
    unfold validate_registry_main
    rw [h5]
    exact ⟨_, rfl⟩
  have hiss : (validate_registry_main c3pages c3registry).map Report.issues
      = Except.ok [Issue.missingPage 2] := rfl
  rw [hr] at hiss
  simp only [Except.map, Except.ok.injEq] at hiss
  have hcov : (check_numerical_coverage c3pages c3registry).2 = 1 := by
    have h2 : ((sourceNumbers c3pages).filter
        (fun n => !(extract_numbers (registryCombinedText c3registry)).contains n)) = [] := by
      decide
    have h1 : sourceNumbers c3pages = ["5%"] := by decide
    rw [check_numerical_coverage_eq, h2, h1]
    norm_num
  refine ⟨r, hr, hiss, ?_⟩
  apply (passed_iff c3pages c3registry r hr).2
  · rw [hcov]; norm_num
  · intro i hi
    rw [hiss] at hi
    rcases List.mem_singleton.mp hi with rfl
    left; rfl

/-! ### Checker error handling and totality (C9) -/

/-- C9 counterexample: a syntactically valid registry whose claim object
lacks the `claim_id` key makes the contradiction-consistency pass raise
`KeyError`, so `validate_registry` does not return a report. -/
theorem checker_raises_on_missing_claim_id :
    validate_registry (some ⟨[⟨none, none, none, none, none, none⟩], []⟩)
        (Except.ok [(1, "")])
      = Except.error "KeyError: 'claim_id'" := rfl

/-- C9 amended: the checker is robust to an unparseable registry (a
`PARSE_ERROR` report with coverage 0 and `passed = false`) and to an
unreadable document (a `PDF_EXTRACT_ERROR` report with coverage 0 and
`passed = false`), but it is not total in the registry's claim shapes: a
parsed registry containing a claim object without a `claim_id` key makes
the contradiction-consistency check raise `KeyError`. -/
theorem checker_error_reports :
    (∀ pdf_pages, validate_registry none pdf_pages = Except.ok parseErrorReport)
    ∧ parseErrorReport.coverage_score = 0
    ∧ parseErrorReport.passed = false
    ∧ parseErrorReport.issues.map Issue.type = ["PARSE_ERROR"]
    ∧ (∀ (registry : Registry) (e : String),
        validate_registry (some registry) (Except.error e) = Except.ok (pdfErrorReport e))
    ∧ (∀ e : String, (pdfErrorReport e).coverage_score = 0
        ∧ (pdfErrorReport e).passed = false
        ∧ (pdfErrorReport e).issues.map Issue.type = ["PDF_EXTRACT_ERROR"])
    ∧ validate_registry (some ⟨[⟨none, none, none, none, none, none⟩], []⟩)
        (Except.ok [(1, "")]) = Except.error "KeyError: 'claim_id'" := by
  exact ⟨fun _ => rfl, rfl, rfl, rfl, fun _ _ => rfl, fun e => ⟨rfl, rfl, rfl⟩, rfl⟩

/-! ### Issue summary (C10) -/

theorem bumpType_lookup_self (m : List (String × Nat)) (t : String) :
    (bumpType m t).lookup t = some ((m.lookup t).getD 0 + 1) := by
  induction m with
  | nil => simp [bumpType, List.lookup]
  | cons p rest ih =>
    obtain ⟨k, v⟩ := p
    by_cases hk : k = t
    · subst hk
      simp [bumpType, List.lookup]
    · have hbeq : (t == k) = false := beq_eq_false_iff_ne.mpr (fun hh => hk hh.symm)
      simp [bumpType, hk, List.lookup, hbeq, ih]

theorem bumpType_lookup_ne (m : List (String × Nat)) (t t' : String) (h : t' ≠ t) :
    (bumpType m t).lookup t' = m.lookup t' := by
  induction m with
  | nil =>
    have hbeq : (t' == t) = false := beq_eq_false_iff_ne.mpr h
    simp [bumpType, List.lookup, hbeq]
  | cons p rest ih =>
    obtain ⟨k, v⟩ := p
    by_cases hk : k = t
    · subst hk
      have hbeq : (t' == k) = false := beq_eq_false_iff_ne.mpr h
      simp [bumpType, List.lookup, hbeq]
    · by_cases hk' : k = t'
      · subst hk'
        simp [bumpType, hk, List.lookup]
      · have hbeq : (t' == k) = false := beq_eq_false_iff_ne.mpr (fun hh => hk' hh.symm)
        simp [bumpType, hk, List.lookup, hbeq, ih]

theorem bumpType_sum (m : List (String × Nat)) (t : String) :
    ((bumpType m t).map Prod.snd).sum = (m.map Prod.snd).sum + 1 := by
  induction m with
  | nil => simp [bumpType]
  | cons p rest ih =>
    obtain ⟨k, v⟩ := p
    by_cases hk : k = t
    · subst hk
      simp [bumpType]
      omega
    · simp [bumpType, hk, ih]
      omega

theorem summary_foldl_getD (issues : List Issue) :
    ∀ (m : List (String × Nat)) (t : String),
      ((issues.foldl (fun m i => bumpType m i.type) m).lookup t).getD 0
        = (m.lookup t).getD 0 + (issues.filter (fun i => i.type = t)).length := by
  induction issues with
  | nil => intro m t; simp
  | cons i is ih =>
    intro m t
    by_cases hi : i.type = t
    · rw [List.foldl_cons, ih (bumpType m i.type) t, hi, bumpType_lookup_self]
      simp [List.filter_cons, hi]
      omega
    · rw [List.foldl_cons, ih (bumpType m i.type) t,
        bumpType_lookup_ne m i.type t (fun hh => hi hh.symm)]
      simp [List.filter_cons, hi]

theorem summary_foldl_isSome (issues : List Issue) :
    ∀ (m : List (String × Nat)) (t : String),
      ((issues.foldl (fun m i => bumpType m i.type) m).lookup t).isSome
        ↔ (m.lookup t).isSome ∨ 0 < (issues.filter (fun i => i.type = t)).length := by
  induction issues with
  | nil => intro m t; simp
  | cons i is ih =>
    intro m t
    by_cases hi : i.type = t
    · rw [List.foldl_cons, ih (bumpType m i.type) t, hi, bumpType_lookup_self]
      simp [List.filter_cons, hi]
    · rw [List.foldl_cons, ih (bumpType m i.type) t,
        bumpType_lookup_ne m i.type t (fun hh => hi hh.symm)]
      simp [List.filter_cons, hi]

theorem summary_foldl_sum (issues : List Issue) :
    ∀ m : List (String × Nat),
      (((issues.foldl (fun m i => bumpType m i.type) m)).map Prod.snd).sum
        = (m.map Prod.snd).sum + issues.length := by
  induction issues with
  | nil => intro m; simp
  | cons i is ih =>
    intro m
    rw [List.foldl_cons, ih (bumpType m i.type), bumpType_sum]
    simp
    omega

/-- C10: for every run that gets past parsing and PDF extraction, the
report's `issue_summary` counts exactly the issues of each type: looking up
a type yields the number of issues of that type, a type has an entry
exactly when it occurs among the issues, and the counts sum to the total
number of issues. -/
theorem issue_summary_spec (page_texts : List (Nat × String)) (registry : Registry)
    (report : Report)
    (h : validate_registry_main page_texts registry = Except.ok report) :
    report.issue_summary = some (buildSummary report.issues)
    ∧ (∀ t : String, ((buildSummary report.issues).lookup t).getD 0
        = (report.issues.filter (fun i => i.type = t)).length)
    ∧ (∀ t : String, ((buildSummary report.issues).lookup t).isSome
        ↔ t ∈ report.issues.map Issue.type)
    ∧ ((buildSummary report.issues).map Prod.snd).sum = report.issues.length := by
  have hsumm : report.issue_summary = some (buildSummary report.issues) := by
    unfold validate_registry_main at h
    cases hc : check_contradiction_consistency registry with
    | error e =>
      rw [hc] at h
      simp [Bind.bind, Except.bind] at h
    | ok issues5 =>
      rw [hc] at h
      simp only [Bind.bind, Except.bind, pure, Except.pure, Except.ok.injEq] at h
      subst h
      rfl
  refine ⟨hsumm, fun t => ?_, fun t => ?_, ?_⟩
  · rw [buildSummary, summary_foldl_getD]
    simp
  · rw [buildSummary, summary_foldl_isSome]
    simp only [List.lookup_nil, Option.isSome_none, Bool.false_eq_true, false_or]
    rw [List.length_pos]
    constructor
    · intro hne
      obtain ⟨i, hi⟩ := List.exists_mem_of_ne_nil _ hne
      obtain ⟨hmem, htype⟩ := List.mem_filter.mp hi
      exact List.mem_map.mpr ⟨i, hmem, of_decide_eq_true htype⟩
    · intro hmem
      obtain ⟨i, hmem, htype⟩ := List.mem_map.mp hmem
      intro hnil
      have : i ∈ report.issues.filter (fun i => i.type = t) :=
        List.mem_filter.mpr ⟨hmem, decide_eq_true htype⟩
      rw [hnil] at this
      exact List.not_mem_nil _ this
  · rw [buildSummary, summary_foldl_sum]
    simp

def c10pages : List (Nat × String) := [(1, "Returns 5% and 7%")]

def c10registry : Registry := ⟨[], []⟩

/-- C10 witness: one `MISSING_PAGE` and two `ORPHAN_NUMBER` issues; the
summary lists each type with its count. -/
theorem issue_summary_spec_witness :
    ∃ r : Report, validate_registry_main c10pages c10registry = Except.ok r
      ∧ r.issue_summary = some (buildSummary r.issues)
      ∧ ((buildSummary r.issues).lookup "ORPHAN_NUMBER").getD 0
          = (r.issues.filter (fun i => i.type = "ORPHAN_NUMBER")).length := by
  have h5 : check_contradiction_consistency c10registry = Except.ok [] := rfl
  obtain ⟨r, hr⟩ : ∃ r, validate_registry_main c10pages c10registry = Except.ok r := by
    unfold validate_registry_main
    rw [h5]
    exact ⟨_, rfl⟩
  obtain ⟨h1, h2, -, -⟩ := issue_summary_spec c10pages c10registry r hr
  exact ⟨r, hr, h1, h2 "ORPHAN_NUMBER"⟩

/-! ### Matcher edge cases (C4) -/

/-- C4 counterexample: with an empty ground-truth list the coverage
returned by `match_claims_to_ground_truth` is `0.0`, not `1.0` — the code
reads `... if ground_truth else 0.0`. -/
theorem empty_ground_truth_coverage_not_one :
    (match_claims_to_ground_truth [] [] (45/100)).coverage = 0
    ∧ (match_claims_to_ground_truth [] [] (45/100)).coverage ≠ 1 := by
  have h : (match_claims_to_ground_truth [] [] (45/100)).coverage = 0 := rfl
  refine ⟨h, ?_⟩
  rw [h]
  norm_num

theorem match_claims_coverage_eq (claims : List Claim) (gt : List GTEntry) (th : ℚ) :
    (match_claims_to_ground_truth claims gt th).coverage
      = (if gt.isEmpty then 0
         else ((match_claims_to_ground_truth claims gt th).matched_gt_indices.length : ℚ)
           / (gt.length : ℚ)) := rfl

/-- C4 amended: for both matchers an empty ground-truth (right) list gives
an empty match set and coverage `0.0` (not `1.0`); and for non-empty ground
truth the coverage is `0.0` exactly when no ground-truth entry was matched. -/
theorem empty_ground_truth_matcher_spec :
    (∀ (claims : List Claim) (threshold : ℚ),
      match_claims_to_ground_truth claims [] threshold
        = { matched_claim_ids := [], matched_gt_indices := [], «matches» := [],
            missed_gt := [], coverage := 0 })
    ∧ (∀ (findings : List Finding) (threshold : ℚ),
      match_findings_to_ground_truth findings [] threshold
        = { matched_finding_indices := [], matched_gt_indices := [], «matches» := [],
            missed_gt := [], coverage := 0 })
    ∧ (∀ (claims : List Claim) (gt : List GTEntry) (threshold : ℚ), gt ≠ [] →
        ((match_claims_to_ground_truth claims gt threshold).coverage = 0
          ↔ (match_claims_to_ground_truth claims gt threshold).matched_gt_indices = [])) := by
  refine ⟨?_, ?_, ?_⟩
  · intro claims th
    have hs : claimScores claims [] = [] := by simp [claimScores]
    unfold match_claims_to_ground_truth
    rw [hs]
    rfl
  · intro findings th
    have hs : findingScores findings [] = [] := by simp [findingScores]
    unfold match_findings_to_ground_truth
    rw [hs]
    rfl
  · intro claims gt th hne
    have hE : gt.isEmpty = false := by simpa [List.isEmpty_iff] using hne
    have hden : ((gt.length : ℚ)) ≠ 0 := by
      have : 0 < gt.length := List.length_pos.mpr hne
      positivity
    rw [match_claims_coverage_eq, hE]
    simp only [Bool.false_eq_true, if_false, div_eq_zero_iff, hden, or_false,
      Nat.cast_eq_zero, List.length_eq_zero]

/-! ### SequenceMatcher: validity of the longest match (towards C6/C7)

`find_longest_match a b alo ahi blo bhi` returns a block lying inside the
requested ranges; from this the total match size is bounded by each range's
width, which bounds the ratio by one. -/

namespace Cascade

/-- The `k` computed by the inner loop for column `j` (it depends only on
the previous row, not on the accumulator or the running best). -/
def kfun (prev : List (Nat × Nat)) (j : Nat) : Nat :=
  (if j = 0 then 0 else j2get prev (j - 1)) + 1

/-- The best-block update for column `j` of row `i`. -/
def updFB (i : Nat) (prev : List (Nat × Nat)) (fb : FB) (j : Nat) : FB :=
  if kfun prev j > fb.bestsize then ⟨i + 1 - kfun prev j, j + 1 - kfun prev j, kfun prev j⟩
  else fb

/-- The block lies inside `[alo, ahi) × [blo, bhi)`. -/
def FBvalid (alo ahi blo bhi : Nat) (fb : FB) : Prop :=
  alo ≤ fb.besti ∧ fb.besti + fb.bestsize ≤ ahi
    ∧ blo ≤ fb.bestj ∧ fb.bestj + fb.bestsize ≤ bhi

theorem lookup_mem : ∀ (m : List (Nat × Nat)) (k v : Nat),
    m.lookup k = some v → (k, v) ∈ m := by
  intro m
  induction m with
  | nil => intro k v h; simp [List.lookup] at h
  | cons p rest ih =>
    intro k v h
    obtain ⟨k', v'⟩ := p
    by_cases hk : k = k'
    · subst hk
      simp [List.lookup] at h
      simp [h]
    · have hbeq : (k == k') = false := beq_eq_false_iff_ne.mpr hk
      simp [List.lookup, hbeq] at h
      simp [ih k v h]

theorem innerLoop_eq (i : Nat) (prev : List (Nat × Nat)) :
    ∀ (js : List Nat) (acc : List (Nat × Nat)) (fb : FB),
      innerLoop i prev js acc fb
        = (acc ++ js.map (fun j => (j, kfun prev j)), js.foldl (updFB i prev) fb) := by
  intro js
  induction js with
  | nil => intro acc fb; simp [innerLoop]
  | cons j js ih =>
    intro acc fb
    rw [innerLoop, ih]
    simp [kfun, updFB]

theorem kfun_bounds (prev : List (Nat × Nat)) (alo blo i j : Nat)
    (hJ : ∀ p ∈ prev, blo + p.2 ≤ p.1 + 1 ∧ alo + p.2 ≤ i)
    (hai : alo ≤ i) (hbj : blo ≤ j) :
    alo + kfun prev j ≤ i + 1 ∧ blo + kfun prev j ≤ j + 1 := by
  unfold kfun
  by_cases hj : j = 0
  · subst hj
    have : blo = 0 := Nat.le_zero.mp hbj
    simp [this]
    omega
  · rw [if_neg hj]
    unfold j2get
    cases hl : prev.lookup (j - 1) with
    | none => simp; omega
    | some v =>
      have hmem := lookup_mem prev (j - 1) v hl
      have := hJ _ hmem
      simp at this ⊢
      omega

theorem updFB_valid (a b : List Char) (alo ahi blo bhi i : Nat)
    (prev : List (Nat × Nat)) (fb : FB) (j : Nat)
    (hfb : FBvalid alo ahi blo bhi fb)
    (hi : i < ahi) (hj : j < bhi)
    (hk1 : alo + kfun prev j ≤ i + 1) (hk2 : blo + kfun prev j ≤ j + 1) :
    FBvalid alo ahi blo bhi (updFB i prev fb j) := by
  unfold updFB
  split
  · unfold FBvalid
    refine ⟨?_, ?_, ?_, ?_⟩ <;> simp <;> omega
  · exact hfb

theorem foldl_updFB_valid (a b : List Char) (alo ahi blo bhi i : Nat)
    (prev : List (Nat × Nat))
    (hJ : ∀ p ∈ prev, blo + p.2 ≤ p.1 + 1 ∧ alo + p.2 ≤ i)
    (hai : alo ≤ i) (hiahi : i < ahi) :
    ∀ (js : List Nat) (fb : FB), (∀ j ∈ js, blo ≤ j ∧ j < bhi) →
      FBvalid alo ahi blo bhi fb →
      FBvalid alo ahi blo bhi (js.foldl (updFB i prev) fb) := by
  intro js
  induction js with
  | nil => intro fb _ hfb; exact hfb
  | cons j js ih =>
    intro fb hjs hfb
    have hj := hjs j (by simp)
    have hk := kfun_bounds prev alo blo i j hJ hai hj.1
    rw [List.foldl_cons]
    exact ih _ (fun x hx => hjs x (by simp [hx]))
      (updFB_valid a b alo ahi blo bhi i prev fb j hfb hiahi hj.2 hk.1 hk.2)

theorem rowLoop_valid (a b : List Char) (alo ahi blo bhi : Nat) :
    ∀ (n s : Nat) (j2len : List (Nat × Nat)) (fb : FB),
      alo ≤ s → s + n ≤ ahi →
      (∀ p ∈ j2len, blo + p.2 ≤ p.1 + 1 ∧ alo + p.2 ≤ s) →
      FBvalid alo ahi blo bhi fb →
      FBvalid alo ahi blo bhi (rowLoop a b blo bhi (List.range' s n) j2len fb) := by
  intro n
  induction n with
  | zero => intro s j2len fb _ _ _ hfb; simpa [rowLoop] using hfb
  | succ n ih =>
    intro s j2len fb hs hsn hJ hfb
    rw [List.range'_succ, rowLoop, innerLoop_eq]
    have hjs : ∀ j ∈ (b2j b (cAt a s)).filter (fun j => blo ≤ j && j < bhi),
        blo ≤ j ∧ j < bhi := by
      intro j hj
      have := List.of_mem_filter hj
      simp at this
      exact this
    refine ih (s + 1) _ _ (by omega) (by omega) ?_ ?_
    · intro p hp
      obtain ⟨j, hj, hpj⟩ := List.mem_map.mp hp
      subst hpj
      have hjp := hjs j hj
      have hk := kfun_bounds j2len alo blo s j hJ hs hjp.1
      exact ⟨hk.2, hk.1⟩
    · exact foldl_updFB_valid a b alo ahi blo bhi s j2len hJ hs (by omega) _ fb hjs hfb

theorem extendBack_valid (a b : List Char) (alo ahi blo bhi : Nat) :
    ∀ (fuel : Nat) (fb : FB), FBvalid alo ahi blo bhi fb →
      FBvalid alo ahi blo bhi (extendBack a b alo blo fuel fb) := by
  intro fuel
  induction fuel with
  | zero => intro fb hfb; exact hfb
  | succ fuel ih =>
    intro fb hfb
    rw [extendBack]
    split
    · next hcond =>
      apply ih
      obtain ⟨h1, h2, h3, h4⟩ := hfb
      obtain ⟨hc1, hc2, -⟩ := hcond
      refine ⟨?_, ?_, ?_, ?_⟩ <;> dsimp only <;> omega
    · exact hfb

theorem extendFwd_valid (a b : List Char) (alo ahi blo bhi : Nat) :
    ∀ (fuel : Nat) (fb : FB), FBvalid alo ahi blo bhi fb →
      FBvalid alo ahi blo bhi (extendFwd a b ahi bhi fuel fb) := by
  intro fuel
  induction fuel with
  | zero => intro fb hfb; exact hfb
  | succ fuel ih =>
    intro fb hfb
    rw [extendFwd]
    split
    · next hcond =>
      apply ih
      obtain ⟨h1, h2, h3, h4⟩ := hfb
      obtain ⟨hc1, hc2, -⟩ := hcond
      refine ⟨?_, ?_, ?_, ?_⟩ <;> dsimp only <;> omega
    · exact hfb

theorem find_longest_match_valid (a b : List Char) (alo ahi blo bhi : Nat)
    (h1 : alo ≤ ahi) (h2 : blo ≤ bhi) :
    FBvalid alo ahi blo bhi (find_longest_match a b alo ahi blo bhi) := by
  unfold find_longest_match
  apply extendFwd_valid
  apply extendBack_valid
  apply rowLoop_valid a b alo ahi blo bhi (ahi - alo) alo [] ⟨alo, blo, 0⟩
    (le_refl alo) (by omega) (by simp)
  refine ⟨?_, ?_, ?_, ?_⟩ <;> dsimp only <;> omega

theorem matchTotal_le_left (a b : List Char) :
    ∀ (fuel alo ahi blo bhi : Nat), alo ≤ ahi → blo ≤ bhi →
      matchTotal a b fuel alo ahi blo bhi ≤ ahi - alo := by
  intro fuel
  induction fuel with
  | zero => intro alo ahi blo bhi _ _; simp [matchTotal]
  | succ fuel ih =>
    intro alo ahi blo bhi h1 h2
    rw [matchTotal]
    split
    · omega
    · next hsz =>
      have hv := find_longest_match_valid a b alo ahi blo bhi h1 h2
      obtain ⟨hv1, hv2, hv3, hv4⟩ := hv
      have hL := ih alo (find_longest_match a b alo ahi blo bhi).besti blo
        (find_longest_match a b alo ahi blo bhi).bestj hv1 hv3
      have hR := ih ((find_longest_match a b alo ahi blo bhi).besti
          + (find_longest_match a b alo ahi blo bhi).bestsize) ahi
        ((find_longest_match a b alo ahi blo bhi).bestj
          + (find_longest_match a b alo ahi blo bhi).bestsize) bhi hv2 hv4
      omega

theorem matchTotal_le_right (a b : List Char) :
    ∀ (fuel alo ahi blo bhi : Nat), alo ≤ ahi → blo ≤ bhi →
      matchTotal a b fuel alo ahi blo bhi ≤ bhi - blo := by
  intro fuel
  induction fuel with
  | zero => intro alo ahi blo bhi _ _; simp [matchTotal]
  | succ fuel ih =>
    intro alo ahi blo bhi h1 h2
    rw [matchTotal]
    split
    · omega
    · next hsz =>
      have hv := find_longest_match_valid a b alo ahi blo bhi h1 h2
      obtain ⟨hv1, hv2, hv3, hv4⟩ := hv
      have hL := ih alo (find_longest_match a b alo ahi blo bhi).besti blo
        (find_longest_match a b alo ahi blo bhi).bestj hv1 hv3
      have hR := ih ((find_longest_match a b alo ahi blo bhi).besti
          + (find_longest_match a b alo ahi blo bhi).bestsize) ahi
        ((find_longest_match a b alo ahi blo bhi).bestj
          + (find_longest_match a b alo ahi blo bhi).bestsize) bhi hv2 hv4
      omega

theorem ratioQ_nonneg (a b : List Char) : 0 ≤ ratioQ a b := by
  simp only [ratioQ]
  split
  · norm_num
  · positivity

theorem ratioQ_le_one (a b : List Char) : ratioQ a b ≤ 1 := by
  simp only [ratioQ]
  split
  · norm_num
  · next ht =>
    have hM1 := matchTotal_le_left a b (a.length + b.length + 1) 0 a.length 0 b.length
      (by omega) (by omega)
    have hM2 := matchTotal_le_right a b (a.length + b.length + 1) 0 a.length 0 b.length
      (by omega) (by omega)
    have htpos : 0 < ((a.length + b.length : Nat) : ℚ) := by
      have : 0 < a.length + b.length := Nat.pos_of_ne_zero ht
      exact_mod_cast this
    rw [div_le_one htpos]
    have : 2 * matchTotal a b (a.length + b.length + 1) 0 a.length 0 b.length
        ≤ a.length + b.length := by omega
    exact_mod_cast this

theorem sentence_similarity_nonneg (a b : String) : 0 ≤ sentence_similarity a b :=
  ratioQ_nonneg _ _

theorem sentence_similarity_le_one (a b : String) : sentence_similarity a b ≤ 1 :=
  ratioQ_le_one _ _

end Cascade

/-! ### SequenceMatcher: self-comparison gives ratio one (towards C7)

For `a = b = s` the dynamic program's running best block always lies on the
diagonal: a chain ending at `(i, j)` consists of matching runs of
non-popular characters on both sides, so it can never be strictly longer
than the diagonal chain already seen.  A diagonal best block is then blown
up to the whole string by the two extension loops (character comparisons at
equal indices of the same string always succeed). -/

namespace Cascade

/-- Length of the maximal run of non-popular characters of `s` ending at
index `j`: the value the dynamic program's diagonal chain attains. -/
def runlen (s : List Char) : Nat → Nat
  | 0 => if isPopular s (cAt s 0) then 0 else 1
  | j+1 => if isPopular s (cAt s (j+1)) then 0 else runlen s j + 1

theorem runlen_pop (s : List Char) (j : Nat) (h : isPopular s (cAt s j) = true) :
    runlen s j = 0 := by
  cases j <;> simp [runlen, h]

theorem runlen_succ_nonpop (s : List Char) (j : Nat)
    (h : isPopular s (cAt s (j+1)) = false) :
    runlen s (j+1) = runlen s j + 1 := by
  simp [runlen, h]

theorem runlen_zero_nonpop (s : List Char) (h : isPopular s (cAt s 0) = false) :
    runlen s 0 = 1 := by
  simp [runlen, h]

theorem mem_b2j_facts (b : List Char) (c : Char) (j : Nat) (h : j ∈ b2j b c) :
    j < b.length ∧ cAt b j = c ∧ isPopular b c = false := by
  unfold b2j at h
  split at h
  · exact absurd h (List.not_mem_nil _)
  · next hpop =>
    unfold positions at h
    have := List.of_mem_filter h
    have hj := List.mem_range.mp (List.mem_of_mem_filter h)
    exact ⟨hj, by simpa using this, by simpa using hpop⟩

theorem self_mem_b2j (s : List Char) (i : Nat) (hi : i < s.length)
    (hp : isPopular s (cAt s i) = false) : i ∈ b2j s (cAt s i) := by
  unfold b2j
  rw [if_neg (by simp [hp])]
  unfold positions
  exact List.mem_filter.mpr ⟨List.mem_range.mpr hi, by simp⟩

theorem b2j_pairwise (b : List Char) (c : Char) : (b2j b c).Pairwise (· < ·) := by
  unfold b2j
  split
  · exact List.Pairwise.nil
  · exact (List.pairwise_lt_range b.length).filter _

theorem lookup_map_fn (f : Nat → Nat) :
    ∀ (js : List Nat) (x : Nat), x ∈ js →
      (js.map (fun j => (j, f j))).lookup x = some (f x) := by
  intro js
  induction js with
  | nil => intro x hx; exact absurd hx (List.not_mem_nil _)
  | cons j js ih =>
    intro x hx
    by_cases hxj : x = j
    · subst hxj
      simp [List.lookup]
    · have hbeq : (x == j) = false := beq_eq_false_iff_ne.mpr hxj
      have hx' : x ∈ js := by
        rcases List.mem_cons.mp hx with h | h
        · exact absurd h hxj
        · exact h
      simp [List.lookup, hbeq, ih x hx']

/-- The diagonal invariant carried across the rows of the dynamic program
run on `(s, s)` over the full ranges. -/
def INVd (s : List Char) (i : Nat) (m : List (Nat × Nat)) (fb : FB) : Prop :=
  fb.besti = fb.bestj
  ∧ (∀ j, j < i → runlen s j ≤ fb.bestsize)
  ∧ (∀ p ∈ m, p.2 ≤ runlen s p.1)
  ∧ (i = 0 → m = [])
  ∧ (∀ p ∈ m, 1 ≤ i → p.2 ≤ runlen s (i - 1))
  ∧ (∀ p ∈ m, 1 ≤ i → p.1 ∈ b2j s (cAt s (i - 1)))
  ∧ (1 ≤ i → isPopular s (cAt s (i - 1)) = false →
      m.lookup (i - 1) = some (runlen s (i - 1)))

theorem kfun_le_runlen_col (s : List Char) (m : List (Nat × Nat)) (j : Nat)
    (hpop : isPopular s (cAt s j) = false)
    (hM1 : ∀ p ∈ m, p.2 ≤ runlen s p.1) :
    kfun m j ≤ runlen s j := by
  unfold kfun
  cases j with
  | zero => simp [runlen_zero_nonpop s hpop]
  | succ t =>
    rw [if_neg (Nat.succ_ne_zero t), runlen_succ_nonpop s t hpop]
    unfold j2get
    cases hl : m.lookup (t + 1 - 1) with
    | none => simp
    | some v =>
      have := hM1 _ (lookup_mem m _ v hl)
      simp at this ⊢
      omega

theorem kfun_le_runlen_row (s : List Char) (i : Nat) (m : List (Nat × Nat)) (j : Nat)
    (hpopi : isPopular s (cAt s i) = false)
    (hM0 : i = 0 → m = [])
    (hM2 : ∀ p ∈ m, 1 ≤ i → p.2 ≤ runlen s (i - 1)) :
    kfun m j ≤ runlen s i := by
  unfold kfun
  cases i with
  | zero =>
    rw [hM0 rfl]
    have : (if j = 0 then 0 else j2get [] (j - 1)) = 0 := by
      split
      · rfl
      · simp [j2get, List.lookup]
    rw [this, runlen_zero_nonpop s hpopi]
  | succ t =>
    rw [runlen_succ_nonpop s t hpopi]
    split
    · omega
    · unfold j2get
      cases hl : m.lookup (j - 1) with
      | none => simp
      | some v =>
        have := hM2 _ (lookup_mem m _ v hl) (by omega)
        simp at this ⊢
        omega

theorem kfun_diag (s : List Char) (i : Nat) (m : List (Nat × Nat))
    (hpopi : isPopular s (cAt s i) = false)
    (hM0 : i = 0 → m = [])
    (hkeys : ∀ p ∈ m, 1 ≤ i → p.1 ∈ b2j s (cAt s (i - 1)))
    (hM3 : 1 ≤ i → isPopular s (cAt s (i - 1)) = false →
      m.lookup (i - 1) = some (runlen s (i - 1))) :
    kfun m i = runlen s i := by
  unfold kfun
  cases i with
  | zero => simp [hM0 rfl, runlen_zero_nonpop s hpopi]
  | succ t =>
    rw [if_neg (Nat.succ_ne_zero t), runlen_succ_nonpop s t hpopi]
    by_cases hpt : isPopular s (cAt s t) = true
    · have hnone : m.lookup (t + 1 - 1) = none := by
        cases hl : m.lookup (t + 1 - 1) with
        | none => rfl
        | some v =>
          have hmem := lookup_mem m _ v hl
          have := hkeys _ hmem (by omega)
          simp at this
          have hf := mem_b2j_facts s (cAt s t) _ this
          rw [hf.2.2] at hpt
          exact absurd hpt (by simp)
      rw [runlen_pop s t hpt]
      simp only [Nat.add_sub_cancel] at hnone
      simp [j2get, hnone]
    · have hpt' : isPopular s (cAt s t) = false := by
        simpa using hpt
      have := hM3 (by omega) (by simpa using hpt')
      simp at this
      simp [j2get, this]

theorem foldl_updFB_noupd (i : Nat) (m : List (Nat × Nat)) :
    ∀ (L : List Nat) (fb : FB), (∀ j ∈ L, kfun m j ≤ fb.bestsize) →
      L.foldl (updFB i m) fb = fb := by
  intro L
  induction L with
  | nil => intro fb _; rfl
  | cons j L ih =>
    intro fb h
    have hj := h j (by simp)
    rw [List.foldl_cons]
    have : updFB i m fb j = fb := by
      unfold updFB
      rw [if_neg (by omega)]
    rw [this]
    exact ih fb (fun x hx => h x (by simp [hx]))

theorem updFB_diag_at (s : List Char) (i : Nat) (m : List (Nat × Nat)) (fb : FB)
    (hdiag : fb.besti = fb.bestj) (hk : kfun m i = runlen s i) :
    (updFB i m fb i).besti = (updFB i m fb i).bestj
    ∧ runlen s i ≤ (updFB i m fb i).bestsize
    ∧ fb.bestsize ≤ (updFB i m fb i).bestsize := by
  unfold updFB
  split
  · next hgt => exact ⟨rfl, by dsimp only; omega, by dsimp only; omega⟩
  · next hle => exact ⟨hdiag, by omega, le_refl _⟩

theorem row_step_diag (s : List Char) (i : Nat) (m : List (Nat × Nat)) (fb : FB)
    (hi : i < s.length) (hINV : INVd s i m fb) :
    INVd s (i+1) ((b2j s (cAt s i)).map (fun j => (j, kfun m j)))
      ((b2j s (cAt s i)).foldl (updFB i m) fb) := by
  obtain ⟨hdiag, hC, hM1, hM0, hM2, hkeys, hM3⟩ := hINV
  by_cases hpop : isPopular s (cAt s i) = true
  · have hnil : b2j s (cAt s i) = [] := by
      unfold b2j
      rw [if_pos hpop]
    rw [hnil]
    refine ⟨hdiag, ?_, by simp, fun _ => rfl, by simp, by simp, ?_⟩
    · intro j hj
      rcases Nat.lt_succ_iff_lt_or_eq.mp hj with h | h
      · exact hC j h
      · subst h
        rw [runlen_pop s j hpop]
        omega
    · intro _ hfalse
      simp at hfalse
      rw [hfalse] at hpop
      exact absurd hpop (by simp)
  · have hpop' : isPopular s (cAt s i) = false := by simpa using hpop
    have hself := self_mem_b2j s i hi hpop'
    obtain ⟨A, B, hAB⟩ := List.append_of_mem hself
    have hpw := b2j_pairwise s (cAt s i)
    rw [hAB] at hpw
    have hA : ∀ a ∈ A, a < i := by
      intro a ha
      exact (List.pairwise_append.mp hpw).2.2 a ha i (by simp)
    have hB : ∀ b' ∈ B, i < b' := by
      have := (List.pairwise_append.mp hpw).2.1
      exact (List.pairwise_cons.mp this).1
    have hmemA : ∀ j ∈ A, j ∈ b2j s (cAt s i) := by
      intro j hj; rw [hAB]; simp [hj]
    have hmemB : ∀ j ∈ B, j ∈ b2j s (cAt s i) := by
      intro j hj; rw [hAB]; simp [hj]
    have hpop_of_mem : ∀ j ∈ b2j s (cAt s i), isPopular s (cAt s j) = false := by
      intro j hj
      have hf := mem_b2j_facts s (cAt s i) j hj
      rw [hf.2.1]
      exact hf.2.2
    have hcol : ∀ j ∈ b2j s (cAt s i), kfun m j ≤ runlen s j := by
      intro j hj
      exact kfun_le_runlen_col s m j (hpop_of_mem j hj) hM1
    have hrow : ∀ j ∈ b2j s (cAt s i), kfun m j ≤ runlen s i := by
      intro j _
      exact kfun_le_runlen_row s i m j hpop' hM0 hM2
    have hdiagk : kfun m i = runlen s i := kfun_diag s i m hpop' hM0 hkeys hM3
    have hkA : ∀ j ∈ A, kfun m j ≤ fb.bestsize := by
      intro j hj
      exact le_trans (hcol j (hmemA j hj)) (hC j (hA j hj))
    have hfold : (b2j s (cAt s i)).foldl (updFB i m) fb
        = B.foldl (updFB i m) (updFB i m (A.foldl (updFB i m) fb) i) := by
      rw [hAB, List.foldl_append, List.foldl_cons]
    have hfoldA : A.foldl (updFB i m) fb = fb := foldl_updFB_noupd i m A fb hkA
    obtain ⟨hd1, hd2, hd3⟩ := updFB_diag_at s i m fb hdiag hdiagk
    have hkB : ∀ j ∈ B, kfun m j ≤ (updFB i m fb i).bestsize := by
      intro j hj
      exact le_trans (hrow j (hmemB j hj)) hd2
    have hfoldB : B.foldl (updFB i m) (updFB i m fb i) = updFB i m fb i :=
      foldl_updFB_noupd i m B _ hkB
    rw [hfold, hfoldA, hfoldB]
    refine ⟨hd1, ?_, ?_, fun h => absurd h (Nat.succ_ne_zero i), ?_, ?_, ?_⟩
    · intro j hj
      rcases Nat.lt_succ_iff_lt_or_eq.mp hj with h | h
      · exact le_trans (hC j h) hd3
      · subst h
        exact hd2
    · intro p hp
      obtain ⟨j, hj, hpj⟩ := List.mem_map.mp hp
      subst hpj
      exact hcol j hj
    · intro p hp _
      obtain ⟨j, hj, hpj⟩ := List.mem_map.mp hp
      subst hpj
      simpa using hrow j hj
    · intro p hp _
      obtain ⟨j, hj, hpj⟩ := List.mem_map.mp hp
      subst hpj
      simpa using hj
    · intro _ _
      have : (i + 1 - 1) = i := by omega
      rw [this, lookup_map_fn (kfun m) (b2j s (cAt s i)) i hself, hdiagk]

theorem b2j_filter_all (s : List Char) (c : Char) :
    (b2j s c).filter (fun j => decide (0 ≤ j) && decide (j < s.length)) = b2j s c := by
  apply List.filter_eq_self.mpr
  intro j hj
  have := (mem_b2j_facts s c j hj).1
  simp [this]

theorem rowLoop_diag (s : List Char) :
    ∀ (k i : Nat) (m : List (Nat × Nat)) (fb : FB),
      i + k ≤ s.length → INVd s i m fb →
      (rowLoop s s 0 s.length (List.range' i k) m fb).besti
        = (rowLoop s s 0 s.length (List.range' i k) m fb).bestj := by
  intro k
  induction k with
  | zero =>
    intro i m fb _ hINV
    simpa [rowLoop] using hINV.1
  | succ k ih =>
    intro i m fb hik hINV
    rw [List.range'_succ, rowLoop, innerLoop_eq, b2j_filter_all]
    simp only [List.nil_append]
    exact ih (i+1) _ _ (by omega) (row_step_diag s i m fb (by omega) hINV)

theorem INVd_init (s : List Char) : INVd s 0 [] ⟨0, 0, 0⟩ := by
  refine ⟨rfl, ?_, by simp, fun _ => rfl, by simp, by simp, by omega⟩
  intro j hj
  omega

theorem extendBack_self (s : List Char) :
    ∀ (fuel : Nat) (fb : FB), fb.besti = fb.bestj → fb.besti ≤ fuel →
      extendBack s s 0 0 fuel fb = ⟨0, 0, fb.bestsize + fb.besti⟩ := by
  intro fuel
  induction fuel with
  | zero =>
    intro fb hdiag hle
    have h0 : fb.besti = 0 := Nat.le_zero.mp hle
    obtain ⟨bi, bj, bs⟩ := fb
    simp at h0 hdiag
    subst h0
    subst hdiag
    rfl
  | succ fuel ih =>
    intro fb hdiag hle
    rw [extendBack]
    by_cases hb : fb.besti = 0
    · rw [if_neg (by omega)]
      obtain ⟨bi, bj, bs⟩ := fb
      simp at hb hdiag
      subst hb
      subst hdiag
      rfl
    · rw [if_pos ⟨by omega, by omega, by rw [hdiag]⟩]
      rw [ih ⟨fb.besti - 1, fb.bestj - 1, fb.bestsize + 1⟩ (by dsimp only; omega)
        (by dsimp only; omega)]
      simp only [FB.mk.injEq]
      refine ⟨trivial, trivial, ?_⟩
      dsimp only
      omega

theorem extendFwd_self (s : List Char) :
    ∀ (fuel m' : Nat), m' ≤ s.length → s.length - m' ≤ fuel →
      extendFwd s s s.length s.length fuel ⟨0, 0, m'⟩ = ⟨0, 0, s.length⟩ := by
  intro fuel
  induction fuel with
  | zero =>
    intro m' hle hf
    have : m' = s.length := by omega
    subst this
    rfl
  | succ fuel ih =>
    intro m' hle hf
    rw [extendFwd]
    by_cases hm : m' < s.length
    · rw [if_pos ⟨by dsimp only; omega, by dsimp only; omega, rfl⟩]
      exact ih (m' + 1) (by omega) (by omega)
    · rw [if_neg (by dsimp only; omega)]
      have : m' = s.length := by omega
      rw [this]

theorem find_longest_match_self (s : List Char) :
    find_longest_match s s 0 s.length 0 s.length = ⟨0, 0, s.length⟩ := by
  have hdiag := rowLoop_diag s (s.length) 0 [] ⟨0, 0, 0⟩ (by omega) (INVd_init s)
  have hvalid := rowLoop_valid s s 0 s.length 0 s.length s.length 0 [] ⟨0, 0, 0⟩
    (le_refl 0) (by omega) (by simp)
    ⟨le_refl 0, by dsimp only; omega, le_refl 0, by dsimp only; omega⟩
  simp only [find_longest_match, Nat.sub_zero]
  rw [extendBack_self s _ _ hdiag (le_refl _)]
  obtain ⟨hv1, hv2, hv3, hv4⟩ := hvalid
  exact extendFwd_self s s.length _ (by omega) (by omega)

theorem extendBack_stop (a b : List Char) (alo blo : Nat) (fuel : Nat) (fb : FB)
    (h : ¬ fb.besti > alo) : extendBack a b alo blo fuel fb = fb := by
  cases fuel with
  | zero => rfl
  | succ fuel =>
    rw [extendBack, if_neg (by intro hc; exact h hc.1)]

theorem extendFwd_stop (a b : List Char) (ahi bhi : Nat) (fuel : Nat) (fb : FB)
    (h : ¬ fb.besti + fb.bestsize < ahi) : extendFwd a b ahi bhi fuel fb = fb := by
  cases fuel with
  | zero => rfl
  | succ fuel =>
    rw [extendFwd, if_neg (by intro hc; exact h hc.1)]

theorem find_longest_match_empty_left (a b : List Char) (alo blo bhi : Nat) :
    find_longest_match a b alo alo blo bhi = ⟨alo, blo, 0⟩ := by
  unfold find_longest_match
  rw [Nat.sub_self]
  show extendFwd a b alo bhi alo
    (extendBack a b alo blo (FB.besti ⟨alo, blo, 0⟩) ⟨alo, blo, 0⟩) = ⟨alo, blo, 0⟩
  rw [extendBack_stop a b alo blo _ ⟨alo, blo, 0⟩ (by dsimp only; omega)]
  rw [extendFwd_stop a b alo bhi alo ⟨alo, blo, 0⟩ (by dsimp only; omega)]

theorem matchTotal_empty_left (a b : List Char) (fuel alo blo bhi : Nat) :
    matchTotal a b fuel alo alo blo bhi = 0 := by
  cases fuel with
  | zero => rfl
  | succ fuel =>
    rw [matchTotal, find_longest_match_empty_left]
    simp

theorem matchTotal_self (s : List Char) (fuel : Nat) (h : s ≠ []) :
    matchTotal s s (fuel + 1) 0 s.length 0 s.length = s.length := by
  rw [matchTotal, find_longest_match_self]
  have hlen : s.length ≠ 0 := by
    intro hc
    exact h (List.length_eq_zero.mp hc)
  rw [if_neg (by dsimp only; omega)]
  dsimp only
  rw [matchTotal_empty_left]
  simp only [Nat.zero_add]
  rw [matchTotal_empty_left]
  omega

theorem ratioQ_self (s : List Char) : ratioQ s s = 1 := by
  simp only [ratioQ]
  split
  · rfl
  · next ht =>
    have hne : s ≠ [] := by
      intro hc
      subst hc
      simp at ht
    have hfuel : s.length + s.length + 1 = (s.length + s.length) + 1 := rfl
    rw [hfuel, matchTotal_self s (s.length + s.length) hne]
    have hpos : 0 < ((s.length + s.length : Nat) : ℚ) := by
      have : 0 < s.length + s.length := by
        have := List.length_pos.mpr hne
        omega
      exact_mod_cast this
    rw [div_eq_one_iff_eq (ne_of_gt hpos)]
    push_cast
    ring

/-- `sentence_similarity` of any string with itself is `1.0`. -/
theorem sentence_similarity_self (a : String) : sentence_similarity a a = 1 :=
  ratioQ_self _

end Cascade

/-- C7 counterexample: `difflib`'s ratio is not symmetric — for the
lowercase, strip-invariant strings "ab" and "bacb" the two orders give
2/3 and 1/3. -/
theorem sentence_similarity_not_symmetric :
    sentence_similarity "ab" "bacb" ≠ sentence_similarity "bacb" "ab" := by
  have h1 : sentence_similarity "ab" "bacb" = ratioQ "ab".data "bacb".data := rfl
  have h2 : sentence_similarity "bacb" "ab" = ratioQ "bacb".data "ab".data := rfl
  rw [h1, h2, ratioQ_eval "ab".data "bacb".data 2 6 (by decide) (by decide) (by decide),
    ratioQ_eval "bacb".data "ab".data 1 6 (by decide) (by decide) (by decide)]
  norm_num

/-- C7 amended: `sentence_similarity a a = 1` for every string (including
the empty string, by the `T = 0` convention of `_calculate_ratio`), and the
result always lies in `[0, 1]`; full symmetry fails (see the
counterexample). -/
theorem sentence_similarity_spec :
    (∀ a : String, sentence_similarity a a = 1)
    ∧ sentence_similarity "" "" = 1
    ∧ (∀ a b : String, 0 ≤ sentence_similarity a b ∧ sentence_similarity a b ≤ 1) :=
  ⟨sentence_similarity_self, sentence_similarity_self "",
   fun a b => ⟨sentence_similarity_nonneg a b, sentence_similarity_le_one a b⟩⟩

/-! ### Greedy matcher postconditions (C6) -/

namespace Cascade

theorem mem_insertDesc (le : α → α → Bool) (x : α) :
    ∀ (l : List α) (a : α), a ∈ insertDesc le x l ↔ a = x ∨ a ∈ l := by
  intro l
  induction l with
  | nil => intro a; simp [insertDesc]
  | cons y ys ih =>
    intro a
    unfold insertDesc
    split
    · rw [List.mem_cons, ih a, List.mem_cons]
      tauto
    · simp only [List.mem_cons]

theorem mem_sortDesc (le : α → α → Bool) (l : List α) (a : α) :
    a ∈ sortDesc le l ↔ a ∈ l := by
  unfold sortDesc
  suffices h : ∀ acc : List α,
      a ∈ l.foldl (fun acc x => insertDesc le x acc) acc ↔ a ∈ acc ∨ a ∈ l by
    simpa using h []
  induction l with
  | nil => intro acc; simp
  | cons x xs ih =>
    intro acc
    rw [List.foldl_cons, ih (insertDesc le x acc), mem_insertDesc]
    simp [List.mem_cons]
    tauto

theorem greedyPass_matches_mem [DecidableEq α] (th : ℚ) :
    ∀ (scores : List (ℚ × α × Nat)) (mc : List α) (mg : List Nat)
      (ms : List (α × Nat × ℚ)) (x : α × Nat × ℚ),
      x ∈ (greedyPass th scores (mc, mg, ms)).2.2 →
      x ∈ ms ∨ ∃ sim : ℚ, (sim, x.1, x.2.1) ∈ scores ∧ th ≤ sim ∧ x.2.2 = round3 sim := by
  intro scores
  induction scores with
  | nil => intro mc mg ms x hx; exact Or.inl hx
  | cons sc rest ih =>
    intro mc mg ms x hx
    obtain ⟨sim, cid, j⟩ := sc
    rw [greedyPass] at hx
    split at hx
    · rcases ih mc mg ms x hx with h | ⟨s, hs, hth, hr⟩
      · exact Or.inl h
      · exact Or.inr ⟨s, by simp [hs], hth, hr⟩
    · split at hx
      · next hth =>
        rcases ih _ _ _ x hx with h | ⟨s, hs, hth', hr⟩
        · rcases List.mem_append.mp h with h' | h'
          · exact Or.inl h'
          · rcases List.mem_singleton.mp h' with rfl
            exact Or.inr ⟨sim, by simp, hth, rfl⟩
        · exact Or.inr ⟨s, by simp [hs], hth', hr⟩
      · rcases ih mc mg ms x hx with h | ⟨s, hs, hth, hr⟩
        · exact Or.inl h
        · exact Or.inr ⟨s, by simp [hs], hth, hr⟩

theorem greedyPass_ids_nodup [DecidableEq α] (th : ℚ) :
    ∀ (scores : List (ℚ × α × Nat)) (mc : List α) (mg : List Nat)
      (ms : List (α × Nat × ℚ)),
      (ms.map (fun m => m.1)).Nodup → (∀ p ∈ ms, p.1 ∈ mc) →
      ((greedyPass th scores (mc, mg, ms)).2.2.map (fun m => m.1)).Nodup := by
  intro scores
  induction scores with
  | nil => intro mc mg ms h1 _; exact h1
  | cons sc rest ih =>
    intro mc mg ms h1 h2
    obtain ⟨sim, cid, j⟩ := sc
    rw [greedyPass]
    split
    · exact ih mc mg ms h1 h2
    · next hused =>
      split
      · apply ih
        · rw [List.map_append, List.nodup_append]
          refine ⟨h1, by simp, ?_⟩
          intro y hy hy'
          simp at hy'
          subst hy'
          obtain ⟨p, hp, hpy⟩ := List.mem_map.mp hy
          have := h2 p hp
          rw [hpy] at this
          simp at hused
          exact hused.1 this
        · intro p hp
          rcases List.mem_append.mp hp with h | h
          · simp [h2 p h]
          · rcases List.mem_singleton.mp h with rfl
            simp
      · exact ih mc mg ms h1 h2

theorem greedyPass_gts_nodup [DecidableEq α] (th : ℚ) :
    ∀ (scores : List (ℚ × α × Nat)) (mc : List α) (mg : List Nat)
      (ms : List (α × Nat × ℚ)),
      (ms.map (fun m => m.2.1)).Nodup → (∀ p ∈ ms, p.2.1 ∈ mg) →
      ((greedyPass th scores (mc, mg, ms)).2.2.map (fun m => m.2.1)).Nodup := by
  intro scores
  induction scores with
  | nil => intro mc mg ms h1 _; exact h1
  | cons sc rest ih =>
    intro mc mg ms h1 h2
    obtain ⟨sim, cid, j⟩ := sc
    rw [greedyPass]
    split
    · exact ih mc mg ms h1 h2
    · next hused =>
      split
      · apply ih
        · rw [List.map_append, List.nodup_append]
          refine ⟨h1, by simp, ?_⟩
          intro y hy hy'
          simp at hy'
          subst hy'
          obtain ⟨p, hp, hpy⟩ := List.mem_map.mp hy
          have := h2 p hp
          rw [hpy] at this
          simp at hused
          exact hused.2 this
        · intro p hp
          rcases List.mem_append.mp hp with h | h
          · simp [h2 p h]
          · rcases List.mem_singleton.mp h with rfl
            simp
      · exact ih mc mg ms h1 h2

theorem greedyPass_stay [DecidableEq α] (th : ℚ) (hth : (1:ℚ) < th) :
    ∀ (scores : List (ℚ × α × Nat)) (st : List α × List Nat × List (α × Nat × ℚ)),
      (∀ x ∈ scores, x.1 ≤ 1) → greedyPass th scores st = st := by
  intro scores
  induction scores with
  | nil => intro st _; rfl
  | cons sc rest ih =>
    intro st hle
    obtain ⟨sim, cid, j⟩ := sc
    obtain ⟨mc, mg, ms⟩ := st
    have hsim : sim ≤ 1 := by simpa using hle (sim, cid, j) (by simp)
    rw [greedyPass]
    split
    · exact ih _ (fun x hx => hle x (by simp [hx]))
    · split
      · next h => exact absurd h (by push_neg; linarith)
      · exact ih _ (fun x hx => hle x (by simp [hx]))

theorem mem_claimScores (claims : List Claim) (gt : List GTEntry)
    (x : ℚ × String × Nat) (hx : x ∈ claimScores claims gt) :
    ∃ c ∈ claims, ∃ g : GTEntry, gt.get? x.2.2 = some g
      ∧ x.2.1 = c.claim_id.getD ""
      ∧ x.1 = sentence_similarity (c.exact_text.getD "") (g.sentence.getD "") := by
  unfold claimScores at hx
  obtain ⟨c, hc, hx⟩ := List.mem_flatMap.mp hx
  obtain ⟨⟨j, g⟩, hjg, hxe⟩ := List.mem_map.mp hx
  subst hxe
  exact ⟨c, hc, g, List.mem_enum_iff_get?.mp hjg, rfl, rfl⟩

theorem mem_findingScores (findings : List Finding) (gt : List GTEntry)
    (x : ℚ × Nat × Nat) (hx : x ∈ findingScores findings gt) :
    ∃ f : Finding, findings.get? x.2.1 = some f ∧ ∃ g : GTEntry, gt.get? x.2.2 = some g
      ∧ x.1 = sentence_similarity (f.sentence.getD "") (g.sentence.getD "") := by
  unfold findingScores at hx
  obtain ⟨⟨i, f⟩, hif, hx⟩ := List.mem_flatMap.mp hx
  obtain ⟨⟨j, g⟩, hjg, hxe⟩ := List.mem_map.mp hx
  subst hxe
  exact ⟨f, List.mem_enum_iff_get?.mp hif, g, List.mem_enum_iff_get?.mp hjg, rfl⟩

theorem claimScores_le_one (claims : List Claim) (gt : List GTEntry) :
    ∀ x ∈ claimScores claims gt, x.1 ≤ 1 := by
  intro x hx
  obtain ⟨c, -, g, -, -, hsim⟩ := mem_claimScores claims gt x hx
  rw [hsim]
  exact sentence_similarity_le_one _ _

theorem findingScores_le_one (findings : List Finding) (gt : List GTEntry) :
    ∀ x ∈ findingScores findings gt, x.1 ≤ 1 := by
  intro x hx
  obtain ⟨f, -, g, -, hsim⟩ := mem_findingScores findings gt x hx
  rw [hsim]
  exact sentence_similarity_le_one _ _

end Cascade

namespace Cascade

theorem match_claims_matches_eq (claims : List Claim) (gt : List GTEntry) (th : ℚ) :
    (match_claims_to_ground_truth claims gt th).«matches»
      = (greedyPass th (sortDesc tupLeS (claimScores claims gt)) ([], [], [])).2.2 := rfl

theorem match_claims_gts_eq (claims : List Claim) (gt : List GTEntry) (th : ℚ) :
    (match_claims_to_ground_truth claims gt th).matched_gt_indices
      = (greedyPass th (sortDesc tupLeS (claimScores claims gt)) ([], [], [])).2.1 := rfl

theorem match_findings_matches_eq (findings : List Finding) (gt : List GTEntry) (th : ℚ) :
    (match_findings_to_ground_truth findings gt th).«matches»
      = (greedyPass th (sortDesc tupLeN (findingScores findings gt)) ([], [], [])).2.2 := rfl

theorem match_findings_gts_eq (findings : List Finding) (gt : List GTEntry) (th : ℚ) :
    (match_findings_to_ground_truth findings gt th).matched_gt_indices
      = (greedyPass th (sortDesc tupLeN (findingScores findings gt)) ([], [], [])).2.1 := rfl

theorem match_findings_coverage_eq (findings : List Finding) (gt : List GTEntry) (th : ℚ) :
    (match_findings_to_ground_truth findings gt th).coverage
      = (if gt.isEmpty then 0
         else ((match_findings_to_ground_truth findings gt th).matched_gt_indices.length : ℚ)
           / (gt.length : ℚ)) := rfl

theorem bench_matched_eq (findings : List Finding) (gt : List GTEntry) (th : ℚ) :
    (bench_match_findings findings gt th).1
      = ((greedyPass th (sortDesc tupLeN (findingScores findings gt)) ([], [], [])).2.2).map
          (fun m => { finding := findings.getD m.1 ⟨none⟩,
                      ground_truth := gt.getD m.2.1 ⟨none⟩,
                      similarity := m.2.2 : BenchMatch }) := rfl

end Cascade

/-- C6: greedy matcher postconditions, for the two matchers of
ground_truth.py and the matcher of cascade_bench.py: every accepted pair
links an actual left item to an actual ground-truth entry whose similarity
is at least the threshold (the stored score being the rounded similarity);
no left item or ground-truth index appears in more than one accepted pair;
the matchers are deterministic (pure functions of their inputs); and with
the unreachable threshold 1.1 the match set is empty and the coverage is 0
for all (in particular non-empty) ground truth. -/
theorem greedy_matcher_spec (claims : List Claim) (findings : List Finding)
    (gt : List GTEntry) (th : ℚ) :
    (∀ m ∈ (match_claims_to_ground_truth claims gt th).«matches»,
      ∃ c ∈ claims, ∃ g : GTEntry, gt.get? m.2.1 = some g
        ∧ m.1 = c.claim_id.getD ""
        ∧ th ≤ sentence_similarity (c.exact_text.getD "") (g.sentence.getD "")
        ∧ m.2.2 = round3 (sentence_similarity (c.exact_text.getD "") (g.sentence.getD "")))
    ∧ ((match_claims_to_ground_truth claims gt th).«matches».map (fun m => m.1)).Nodup
    ∧ ((match_claims_to_ground_truth claims gt th).«matches».map (fun m => m.2.1)).Nodup
    ∧ (∀ m ∈ (match_findings_to_ground_truth findings gt th).«matches»,
      ∃ f : Finding, findings.get? m.1 = some f ∧ ∃ g : GTEntry, gt.get? m.2.1 = some g
        ∧ th ≤ sentence_similarity (f.sentence.getD "") (g.sentence.getD "")
        ∧ m.2.2 = round3 (sentence_similarity (f.sentence.getD "") (g.sentence.getD "")))
    ∧ ((match_findings_to_ground_truth findings gt th).«matches».map (fun m => m.1)).Nodup
    ∧ ((match_findings_to_ground_truth findings gt th).«matches».map (fun m => m.2.1)).Nodup
    ∧ (∀ p ∈ (bench_match_findings findings gt th).1,
        ∃ f : Finding, ∃ g : GTEntry,
          f ∈ findings ∧ g ∈ gt ∧ p.finding = f ∧ p.ground_truth = g
          ∧ th ≤ sentence_similarity (f.sentence.getD "") (g.sentence.getD "")
          ∧ p.similarity = round3 (sentence_similarity (f.sentence.getD "") (g.sentence.getD "")))
    ∧ match_claims_to_ground_truth claims gt th = match_claims_to_ground_truth claims gt th
    ∧ match_findings_to_ground_truth findings gt th = match_findings_to_ground_truth findings gt th
    ∧ (th = 11/10 →
        (match_claims_to_ground_truth claims gt th).«matches» = []
        ∧ (match_claims_to_ground_truth claims gt th).coverage = 0
        ∧ (match_findings_to_ground_truth findings gt th).«matches» = []
        ∧ (match_findings_to_ground_truth findings gt th).coverage = 0
        ∧ (bench_match_findings findings gt th).1 = []) := by
  refine ⟨?_, ?_, ?_, ?_, ?_, ?_, ?_, rfl, rfl, ?_⟩
  · intro m hm
    rw [match_claims_matches_eq] at hm
    rcases greedyPass_matches_mem th _ [] [] [] m hm with h0 | ⟨sim, hmem, hth, hr⟩
    · exact absurd h0 (List.not_mem_nil _)
    · rw [mem_sortDesc] at hmem
      obtain ⟨c, hc, g, hg, hid, hsim⟩ := mem_claimScores claims gt _ hmem
      simp only at hg hid hsim
      subst hsim
      exact ⟨c, hc, g, hg, hid, hth, hr⟩
  · rw [match_claims_matches_eq]
    exact greedyPass_ids_nodup th _ [] [] [] (by simp) (by simp)
  · rw [match_claims_matches_eq]
    exact greedyPass_gts_nodup th _ [] [] [] (by simp) (by simp)
  · intro m hm
    rw [match_findings_matches_eq] at hm
    rcases greedyPass_matches_mem th _ [] [] [] m hm with h0 | ⟨sim, hmem, hth, hr⟩
    · exact absurd h0 (List.not_mem_nil _)
    · rw [mem_sortDesc] at hmem
      obtain ⟨f, hf, g, hg, hsim⟩ := mem_findingScores findings gt _ hmem
      simp only at hf hg hsim
      subst hsim
      exact ⟨f, hf, g, hg, hth, hr⟩
  · rw [match_findings_matches_eq]
    exact greedyPass_ids_nodup th _ [] [] [] (by simp) (by simp)
  · rw [match_findings_matches_eq]
    exact greedyPass_gts_nodup th _ [] [] [] (by simp) (by simp)
  · intro p hp
    rw [bench_matched_eq] at hp
    obtain ⟨m, hm, hpe⟩ := List.mem_map.mp hp
    rcases greedyPass_matches_mem th _ [] [] [] m hm with h0 | ⟨sim, hmem, hth, hr⟩
    · exact absurd h0 (List.not_mem_nil _)
    · rw [mem_sortDesc] at hmem
      obtain ⟨f, hf, g, hg, hsim⟩ := mem_findingScores findings gt _ hmem
      simp only at hf hg hsim
      subst hsim
      have hfd : findings.getD m.1 ⟨none⟩ = f := by
        show (findings.get? m.1).getD _ = f
        rw [hf]
        rfl
      have hgd : gt.getD m.2.1 ⟨none⟩ = g := by
        show (gt.get? m.2.1).getD _ = g
        rw [hg]
        rfl
      subst hpe
      exact ⟨f, g, List.get?_mem hf, List.get?_mem hg, hfd, hgd, hth, hr⟩
  · intro hth
    subst hth
    have hb1 : ∀ x ∈ sortDesc tupLeS (claimScores claims gt), x.1 ≤ 1 :=
      fun x hx => claimScores_le_one claims gt x ((mem_sortDesc _ _ _).mp hx)
    have hb2 : ∀ x ∈ sortDesc tupLeN (findingScores findings gt), x.1 ≤ 1 :=
      fun x hx => findingScores_le_one findings gt x ((mem_sortDesc _ _ _).mp hx)
    have hs1 := greedyPass_stay (11/10) (by norm_num) _ ([], [], []) hb1
    have hs2 := greedyPass_stay (11/10) (by norm_num) _ ([], [], []) hb2
    refine ⟨?_, ?_, ?_, ?_, ?_⟩
    · rw [match_claims_matches_eq, hs1]
    · rw [match_claims_coverage_eq, match_claims_gts_eq, hs1]
      split <;> simp
    · rw [match_findings_matches_eq, hs2]
    · rw [match_findings_coverage_eq, match_findings_gts_eq, hs2]
      split <;> simp
    · rw [bench_matched_eq, hs2]
      rfl
